import Mathlib

/-!
Verification development for the Xtract RAG retrieval core.

This file gives a shallow embedding, in Lean 4, of the retrieval core of the
repository (the section chunker in app/services/chunker.py, the unified search
pipeline in app/services/search_service.py, the rerank service in
app/services/rerank_service.py and the inline-citation enrichment in
app/controllers/query_controller.py), and proves properties of that embedding.

Modelling conventions:
* Python strings are modelled as Lean String / List Char; all text processing
  is implemented on List Char so that every definition reduces in the kernel.
* Python float arithmetic on sizes is modelled by exact natural-number
  arithmetic.  The concrete coincidences used are: int(n * 0.2) = n / 5 and
  int(n * 0.3) = (3 * n) / 10 for every natural n in the sizes that occur
  (checked exhaustively up to 200000 against CPython), and the comparison
  c <= m * 1.2 agrees with 10 * c <= 12 * m on the relevant ranges.
* Relevance scores (floats produced by the vector store and the cross
  encoder) are modelled by an arbitrary linearly ordered commutative ring,
  so the search theorems hold for any numeric interpretation; witnesses
  instantiate the ring with Int.
* External collaborators (vector store, embedding models, cross encoder) are
  abstracted as function parameters, exactly at the call boundary the code
  uses them.
-/

set_option maxRecDepth 8000

/-! ## Basic character-list utilities (Python string semantics) -/

/-- The whitespace characters of Python's str.strip() / \s, restricted to
ASCII (the inputs modelled here are ASCII). -/
def pyWS (c : Char) : Bool :=
  c = ' ' || c = '\t' || c = '\n' || c = '\x0d' || c = '\x0b' || c = '\x0c'

/-- Python s.strip(): drop whitespace from both ends. -/
def pyStrip (l : List Char) : List Char :=
  ((l.dropWhile pyWS).reverse.dropWhile pyWS).reverse

/-- Python s.strip() on String. -/
def pyStripS (s : String) : String := ⟨pyStrip s.data⟩

/-- Count occurrences of a character (Python s.count(c)). -/
def countChar (c : Char) : List Char → Nat
  | [] => 0
  | d :: ds => (if d = c then 1 else 0) + countChar c ds

/-- Remove a literal from the front: returns the remainder when l starts
with lit, none otherwise. -/
def dropLit : List Char → List Char → Option (List Char)
  | [], l => some l
  | _ :: _, [] => none
  | c :: cs, d :: ds => if c = d then dropLit cs ds else none

/-- Python (lit in s): does lit occur as a contiguous sublist of l? -/
def hasLit (pat : List Char) : List Char → Bool
  | [] => (dropLit pat []).isSome
  | c :: cs => (dropLit pat (c :: cs)).isSome || hasLit pat cs

/-- Split on a single character (Python s.split(c) for one-char separators).
Produces n+1 pieces for n separators, including empty pieces. -/
def splitOnCharGo (c : Char) : List Char → List Char → List (List Char)
  | [], acc => [acc.reverse]
  | d :: ds, acc =>
    if d = c then acc.reverse :: splitOnCharGo c ds []
    else splitOnCharGo c ds (d :: acc)

def splitOnChar (c : Char) (l : List Char) : List (List Char) :=
  splitOnCharGo c l []

/-- The lines of a text, Python s.split(chr(10)). -/
def linesOf (l : List Char) : List (List Char) := splitOnChar '\n' l

/-- Join with a separator (Python sep.join(pieces)). -/
def joinWith (sep : List Char) : List (List Char) → List Char
  | [] => []
  | [p] => p
  | p :: ps => p ++ sep ++ joinWith sep ps

/-! ## strip_base64_images (chunker.py lines 17-32)

Python applies two re.sub passes in order: first the markdown image pattern
r'!\[([^\]]*)\]\(data:image/[^;]+;base64,[^\)]+\)', then the bare data-URI
pattern r'data:image/[^;]+;base64,[A-Za-z0-9+/=\s]+'.  Both regexes are
deterministic (each greedy class is followed by a character it excludes),
so they are implemented as direct scanners; re.sub's leftmost,
non-overlapping semantics is the advance-by-one scan below. -/

def b64Char (c : Char) : Bool :=
  ('A' ≤ c && c ≤ 'Z') || ('a' ≤ c && c ≤ 'z') || ('0' ≤ c && c ≤ '9') ||
  c = '+' || c = '/' || c = '=' || pyWS c

def dataImageLit : List Char := "data:image/".data

def base64Lit : List Char := ";base64,".data

/-- The replacement for a matched markdown image: [Image: alt] or [Image]. -/
def imgMarker (alt : List Char) : List Char :=
  if alt.isEmpty then "[Image]".data
  else "[Image: ".data ++ alt ++ "]".data

/-- Match the markdown-image pattern at the head of the input.  Returns the
replacement text and the rest after the match.  The greedy character
classes of the regex are each followed by a character they exclude, so
they are implemented as takeWhile without loss of generality. -/
def mPat1 (l : List Char) : Option (List Char × List Char) :=
  match dropLit "![".data l with
  | none => none
  | some r0 =>
    let alt := r0.takeWhile (fun c => c ≠ ']')
    match dropLit "](".data (r0.dropWhile (fun c => c ≠ ']')) with
    | none => none
    | some r2 =>
      match dropLit dataImageLit r2 with
      | none => none
      | some r3 =>
        if (r3.takeWhile (fun c => c ≠ ';')).isEmpty then none
        else
          match dropLit base64Lit (r3.dropWhile (fun c => c ≠ ';')) with
          | none => none
          | some r5 =>
            if (r5.takeWhile (fun c => c ≠ ')')).isEmpty then none
            else
              match dropLit ")".data (r5.dropWhile (fun c => c ≠ ')')) with
              | none => none
              | some rest => some (imgMarker alt, rest)

/-- Match the bare data-URI pattern at the head of the input. -/
def mPat2 (l : List Char) : Option (List Char × List Char) :=
  match dropLit dataImageLit l with
  | none => none
  | some r1 =>
    if (r1.takeWhile (fun c => c ≠ ';')).isEmpty then none
    else
      match dropLit base64Lit (r1.dropWhile (fun c => c ≠ ';')) with
      | none => none
      | some r3 =>
        if (r3.takeWhile b64Char).isEmpty then none
        else some ("[Image removed]".data, r3.dropWhile b64Char)

/-! The scanners below recurse on a fuel argument so that they are
structurally recursive and reduce inside the kernel.  Every match consumes
at least one character (mPat1_rest_lt, mPat2_rest_lt), so fuel equal to
the input length never runs out; the out-of-fuel clause returns the
remaining input unchanged. -/

/-- First re.sub pass: replace every markdown base64 image. -/
def sub1Fuel : Nat → List Char → List Char
  | 0, l => l
  | _, [] => []
  | fuel + 1, c :: cs =>
    match mPat1 (c :: cs) with
    | some (rep, rest) => rep ++ sub1Fuel fuel rest
    | none => c :: sub1Fuel fuel cs

def sub1 (l : List Char) : List Char := sub1Fuel l.length l

/-- Second re.sub pass: replace every stray base64 data URI. -/
def sub2Fuel : Nat → List Char → List Char
  | 0, l => l
  | _, [] => []
  | fuel + 1, c :: cs =>
    match mPat2 (c :: cs) with
    | some (rep, rest) => rep ++ sub2Fuel fuel rest
    | none => c :: sub2Fuel fuel cs

def sub2 (l : List Char) : List Char := sub2Fuel l.length l

/-- chunker.strip_base64_images: both passes in order. -/
def strip_base64_images (s : String) : String := ⟨sub2 (sub1 s.data)⟩

/-! ## Data model (app/schemas/document.py, app/schemas/chunk.py)

Only the fields the chunker reads are modelled; the remaining schema fields
are payload the chunker never inspects. -/

structure ParsedSection where
  title : String
  level : Int
  content : String
  page_start : Int
  page_end : Int
deriving DecidableEq

structure ExtractedImage where
  image_id : String
  page_number : Int
deriving DecidableEq

structure ExtractedTable where
  table_id : String
  page_number : Int
  markdown_content : Option String
deriving DecidableEq

/-- A value in a chunk's free-form metadata dict (only booleans and integers
occur in the chunker). -/
inductive MetaVal where
  | b (v : Bool)
  | i (v : Int)
deriving DecidableEq

structure Chunk where
  chunk_id : String
  document_id : String
  category_id : String
  section_title : String
  content : String
  page_start : Int
  page_end : Int
  chunk_index : Nat
  image_ids : List String
  table_ids : List String
  overlap_start : Option String := none
  overlap_end : Option String := none
  metadata : List (String × MetaVal)
deriving DecidableEq

instance : Inhabited Chunk :=
  ⟨⟨"", "", "", "", "", 0, 0, 0, [], [], none, none, []⟩⟩

/-- Python dict insertion/update, preserving insertion order on update. -/
def metaInsert (m : List (String × MetaVal)) (k : String) (v : MetaVal) :
    List (String × MetaVal) :=
  if m.any (fun p => p.1 = k) then
    m.map (fun p => if p.1 = k then (k, v) else p)
  else m ++ [(k, v)]

/-! ## Header/footer detection (chunker.py lines 35-121)

The curated regex pattern list is abstracted as a Boolean predicate on a
(stripped) line; no claim in scope depends on the contents of that list,
and every theorem below quantifies over the predicate, so it holds in
particular for the concrete compiled patterns. -/

/-- The header/footer zone of a section: first five lines, plus last five
lines when the section has more than five lines. -/
def zoneLines (content : List Char) : List (List Char) :=
  let lines := linesOf content
  lines.take 5 ++ (if 5 < lines.length then lines.drop (lines.length - 5) else [])

/-- All stripped zone lines that qualify for the line counter
(3 < len < 150), with multiplicity, across all sections. -/
def countedHeaderLines (sections : List ParsedSection) : List (List Char) :=
  sections.flatMap (fun s =>
    ((zoneLines s.content.data).map pyStrip).filter
      (fun l => 3 < l.length && l.length < 150))

def headerLines5 (s : ParsedSection) : List (List Char) :=
  (linesOf s.content.data).take 5

/-- The 2-line blocks of a section's header zone that qualify for the block
counter (10 < len < 300). -/
def countedBlocks2 (sections : List ParsedSection) : List (List Char) :=
  sections.flatMap (fun s =>
    let hl := headerLines5 s
    ((hl.zip hl.tail).map (fun p => pyStrip p.1 ++ '\n' :: pyStrip p.2)).filter
      (fun b => 10 < b.length && b.length < 300))

/-- The 3-line blocks of a section's header zone that qualify for the block
counter (15 < len < 400). -/
def countedBlocks3 (sections : List ParsedSection) : List (List Char) :=
  sections.flatMap (fun s =>
    let hl := headerLines5 s
    (((hl.zip hl.tail).zip hl.tail.tail).map
      (fun p => pyStrip p.1.1 ++ '\n' :: pyStrip p.1.2 ++ '\n' :: pyStrip p.2)).filter
      (fun b => 15 < b.length && b.length < 400))

/-- collections.Counter, as an association list built by successive bumps. -/
def bumpCounter (k : List Char) : List (List Char × Nat) → List (List Char × Nat)
  | [] => [(k, 1)]
  | (k', n) :: rest =>
    if k' = k then (k', n + 1) :: rest else (k', n) :: bumpCounter k rest

def buildCounter (keys : List (List Char)) : List (List Char × Nat) :=
  keys.foldl (fun ctr k => bumpCounter k ctr) []

/-- threshold = max(2, int(total_sections * 0.2)); CPython's
int(n * 0.2) equals n / 5 for every n in range (checked exhaustively). -/
def freqThreshold (total : Nat) : Nat := max 2 (total / 5)

/-- The lines flagged by the per-line frequency rule (chunker.py lines
104-109): only for documents with at least two sections, a counted line
whose count reaches the threshold. -/
def detect_repeated_headers_freq_lines (sections : List ParsedSection) :
    List (List Char) :=
  if 2 ≤ sections.length then
    ((buildCounter (countedHeaderLines sections)).filter
      (fun p => freqThreshold sections.length ≤ p.2)).map (fun p => p.1)
  else []

/-- The lines contributed by repeated 2/3-line blocks (chunker.py lines
111-116): each qualifying block whose count reaches the threshold is
exploded into its stripped nonempty lines. -/
def detect_repeated_headers_freq_block_lines (sections : List ParsedSection) :
    List (List Char) :=
  if 2 ≤ sections.length then
    (((buildCounter (countedBlocks2 sections ++ countedBlocks3 sections)).filter
      (fun p => freqThreshold sections.length ≤ p.2)).map (fun p => p.1)).flatMap
      (fun b => ((linesOf b).map pyStrip).filter (fun l => ¬ l.isEmpty))
  else []

/-- The counted zone lines matching one of the curated regex patterns
(abstracted as pm), added regardless of frequency. -/
def detect_repeated_headers_pattern_lines (pm : String → Bool)
    (sections : List ParsedSection) : List (List Char) :=
  (countedHeaderLines sections).filter (fun l => pm ⟨l⟩)

/-- chunker._detect_repeated_headers.  The Python function returns a set;
it is modelled as a list used only for membership, so multiplicity and
order are irrelevant. -/
def detect_repeated_headers (pm : String → Bool) (sections : List ParsedSection) :
    List (List Char) :=
  detect_repeated_headers_pattern_lines pm sections ++
  detect_repeated_headers_freq_lines sections ++
  detect_repeated_headers_freq_block_lines sections

/-! ## Content cleaning (chunker.py lines 124-215) -/

/-- Emit a run of pending newlines: runs of three or more collapse to
exactly two. -/
def emitNLRun (p : Nat) : List Char :=
  if 3 ≤ p then ['\n', '\n'] else List.replicate p '\n'

/-- re.sub(newline-run of 3 or more, two newlines, s), tracking the
current newline run length. -/
def cnGo : List Char → Nat → List Char
  | [], pending => emitNLRun pending
  | c :: cs, pending =>
    if c = '\n' then cnGo cs (pending + 1)
    else emitNLRun pending ++ c :: cnGo cs 0

def collapseNewlines (l : List Char) : List Char := cnGo l 0

/-- chunker._clean_content: drop short lines and boilerplate lines, then
collapse blank runs and strip. -/
def clean_content (content : List Char) (repeated_lines : List (List Char)) :
    List Char :=
  let cleaned := (linesOf content).filter (fun line =>
    let ls := pyStrip line
    5 ≤ ls.length && ¬ repeated_lines.contains ls)
  pyStrip (collapseNewlines (joinWith ['\n'] cleaned))

/-- Match the table-marker regex at the head of the input, returning
(table id, rest).  re.match anchors at the start only; trailing text is
allowed. -/
def mTableMarker (l : List Char) : Option (List Char × List Char) :=
  match dropLit "[TABLE:".data l with
  | none => none
  | some r =>
    if (r.takeWhile (fun c => c ≠ ']')).isEmpty then none
    else
      match dropLit "]".data (r.dropWhile (fun c => c ≠ ']')) with
      | none => none
      | some rest => some (r.takeWhile (fun c => c ≠ ']'), rest)

/-- The id captured by the marker regex when the (stripped) line starts
with a marker. -/
def tableMarkerIdAt (l : List Char) : Option (List Char) :=
  (mTableMarker l).map (fun p => p.1)

/-- re.findall of the marker pattern over a whole text (fuelled; a match
consumes at least one character, so fuel equal to the length suffices). -/
def findTableIdsFuel : Nat → List Char → List (List Char)
  | 0, _ => []
  | _, [] => []
  | fuel + 1, c :: cs =>
    match mTableMarker (c :: cs) with
    | some (idc, rest) => idc :: findTableIdsFuel fuel rest
    | none => findTableIdsFuel fuel cs

def findTableIds (l : List Char) : List (List Char) := findTableIdsFuel l.length l

/-- chunker.SectionChunker._extract_table_ids_from_markers.  Python wraps
the findall result in list(set(..)), whose iteration order is unspecified;
it is modelled as first-occurrence deduplication, which is sound for every
claim in scope (none depends on id order). -/
def extract_table_ids_from_markers (content : List Char) : List (List Char) :=
  (findTableIds content).dedup

def tableRemovedLine : List Char := "[TABLE_REMOVED]".data

/-- The line-level loop of chunker.remove_markdown_tables_regex.
State: accumulated table_lines and the in_table flag. -/
def rtlGo : List (List Char) → List (List Char) → Bool → List (List Char)
  | [], tl, it => if it = true ∧ 2 ≤ tl.length then [tableRemovedLine] else []
  | l :: ls, tl, it =>
    if (tableMarkerIdAt (pyStrip l)).isSome then l :: rtlGo ls tl it
    else
      if 2 ≤ countChar '|' l ∨ ((hasLit "---".data l ∨ hasLit "===".data l) ∧ it = true) then
        rtlGo ls (tl ++ [l]) true
      else
        (if it = true then (if 2 ≤ tl.length then [tableRemovedLine] else tl) else []) ++
          l :: rtlGo ls [] false

def removeTablesLines (lines : List (List Char)) : List (List Char) :=
  rtlGo lines [] false

/-- chunker.remove_markdown_tables_regex: returns the cleaned text and the
ids of the [TABLE:id] markers passed through (markers are recognised and
collected on every line, independent of the table state). -/
def remove_markdown_tables_regex (text : List Char) : List Char × List (List Char) :=
  (joinWith ['\n'] (removeTablesLines (linesOf text)),
   (linesOf text).filterMap (fun l => tableMarkerIdAt (pyStrip l)))

/-- Python str.replace: replace all non-overlapping occurrences, leftmost
first.  Only called with a nonempty pattern (the caller skips empty
markdown_content). -/
def replaceAllFuel (pat rep : List Char) : Nat → List Char → List Char
  | 0, l => l
  | _, [] => []
  | fuel + 1, c :: cs =>
    match dropLit pat (c :: cs) with
    | some r => rep ++ replaceAllFuel pat rep fuel r
    | none => c :: replaceAllFuel pat rep fuel cs

def replaceAll (pat rep l : List Char) : List Char :=
  if 0 < pat.length then replaceAllFuel pat rep l.length l else l

/-- chunker.remove_tables_from_content: replace each registered table's
markdown verbatim with a newline-framed marker, collect the found ids,
then run the regex pass (whose extra ids the Python code discards). -/
def remove_tables_from_content (content : List Char)
    (tables : List ExtractedTable) : List Char × List (List Char) :=
  let step := tables.foldl (fun (acc : List Char × List (List Char)) table =>
    match table.markdown_content with
    | none => acc
    | some md =>
      if md.data.isEmpty then acc
      else if hasLit md.data acc.1 then
        (replaceAll md.data
          ('\n' :: "[TABLE:".data ++ table.table_id.data ++ "]".data ++ ['\n']) acc.1,
         acc.2 ++ [table.table_id.data])
      else acc) (content, [])
  ((remove_markdown_tables_regex step.1).1, step.2)

/-! ## Recursive splitting (chunker.py lines 498-568) -/

/-- The separator-selection loop at the top of _split_text: first separator
that is empty (chosen with no further separators) or occurs in the text
(chosen with the remaining separators). -/
def chooseSepGo (text : List Char) :
    List (List Char) → Option (List Char × List (List Char))
  | [] => none
  | sep :: rest =>
    if sep.isEmpty then some ([], [])
    else if hasLit sep text then some (sep, rest)
    else chooseSepGo text rest

/-- When no separator is selected, Python keeps separators[-1] with no new
separators; with the separator lists actually used (always ending in the
empty separator) this branch is unreachable. -/
def chooseSep (seps : List (List Char)) (text : List Char) :
    List Char × List (List Char) :=
  match chooseSepGo text seps with
  | some r => r
  | none => ((seps.getLast?).getD [], [])

/-- Python str.split for a nonempty separator: leftmost, non-overlapping
(fuelled; consuming a separator advances by at least one character). -/
def splitSubFuel (sep : List Char) : Nat → List Char → List Char →
    List (List Char)
  | 0, _, acc => [acc.reverse]
  | fuel + 1, l, acc =>
    match dropLit sep l with
    | some r => acc.reverse :: splitSubFuel sep fuel r []
    | none =>
      match l with
      | [] => [acc.reverse]
      | c :: cs => splitSubFuel sep fuel cs (c :: acc)

def splitSub (sep l : List Char) : List (List Char) :=
  if 0 < sep.length then splitSubFuel sep (l.length + 1) l [] else [l]

/-- The piece-accumulation loop of _split_text.  State: remaining splits,
current_doc, current_length; useRec tells whether new_separators is
nonempty (the condition under which an oversized split is recursed into);
recurse is the recursive _split_text call with the remaining separators. -/
def splitLoop (sep : List Char) (chunk_size : Nat) (useRec : Bool)
    (recurse : List Char → List (List Char)) :
    List (List Char) → List (List Char) → Nat → List (List Char)
  | [], doc, _ =>
    if doc.isEmpty then []
    else
      let t := joinWith sep doc
      if (pyStrip t).isEmpty then [] else [t]
  | s :: ss, doc, len =>
    let sLen := s.length + sep.length
    if chunk_size < len + sLen then
      let flushed :=
        if doc.isEmpty then []
        else
          let t := joinWith sep doc
          if (pyStrip t).isEmpty then [] else [t]
      if chunk_size < sLen ∧ useRec = true then
        flushed ++ recurse s ++ splitLoop sep chunk_size useRec recurse ss [] 0
      else
        flushed ++ splitLoop sep chunk_size useRec recurse ss [s] sLen
    else
      splitLoop sep chunk_size useRec recurse ss (doc ++ [s]) (len + sLen)

/-- chunker.SectionChunker._split_text, fuelled by the length of the
separator list: the recursive call uses the separators after the chosen
one, a strictly shorter list (chooseSep_snd_lt), so fuel equal to the
list length never runs out.  The out-of-fuel clause is unreachable. -/
def splitTextFuel (chunk_size chunk_overlap : Nat) :
    Nat → List (List Char) → List Char → List (List Char)
  | 0, _, text => [text]
  | fuel + 1, seps, text =>
    let sc := chooseSep seps text
    let splits := if sc.1.isEmpty then [text] else splitSub sc.1 text
    splitLoop sc.1 chunk_size (!sc.2.isEmpty)
      (fun s => splitTextFuel chunk_size chunk_overlap fuel sc.2 s) splits [] 0

def split_text (chunk_size chunk_overlap : Nat) (seps : List (List Char))
    (text : List Char) : List (List Char) :=
  splitTextFuel chunk_size chunk_overlap seps.length seps text

/-- chunker.SectionChunker._recursive_split. -/
def recursive_split (text : List Char) (chunk_size chunk_overlap : Nat) :
    List (List Char) :=
  split_text chunk_size chunk_overlap
    ["\n\n".data, "\n".data, ". ".data, " ".data, []] text

/-! ## The SectionChunker pipeline (chunker.py lines 218-608) -/

/-- The chunker's configuration.  max_chunk_size comes from settings
(default 2000); the overlap percentage is represented as the exact
fraction ovNum/ovDen (settings default 0.20 = 1/5), so that Python's
int(n * overlap_percentage) is (n * ovNum) / ovDen — exact for the
default (checked exhaustively against CPython). -/
structure ChunkerSettings where
  max_chunk_size : Nat
  ovNum : Nat
  ovDen : Nat
deriving DecidableEq

/-- self._min_chunk_size = 100, hardcoded in SectionChunker.__init__. -/
def minChunkSize : Nat := 100

/-- self._merge_threshold = int(max_chunk_size * 0.3) = (3 * max) / 10. -/
def mergeThreshold (cfg : ChunkerSettings) : Nat := (3 * cfg.max_chunk_size) / 10

/-- int(n * overlap_percentage). -/
def overlapChars (cfg : ChunkerSettings) (n : Nat) : Nat :=
  (n * cfg.ovNum) / cfg.ovDen

def defaultSettings : ChunkerSettings := ⟨2000, 1, 5⟩

/-- First index of a sublist (Python str.find). -/
def findLit (pat : List Char) : List Char → Option Nat
  | [] => if pat.isEmpty then some 0 else none
  | c :: cs =>
    if (dropLit pat (c :: cs)).isSome then some 0
    else (findLit pat cs).map (fun n => n + 1)

/-- Python s[-n:] guarded by the code's explicit length test: the tail of
size n, except that n = 0 yields the whole string (s[-0:] is s[0:]), and
a string no longer than n is returned whole. -/
def tailSlice (l : List Char) (n : Nat) : List Char :=
  if n < l.length then (if n = 0 then l else l.drop (l.length - n)) else l

/-- chunker.SectionChunker._combine_chunks.  Python materialises
image/table id unions via list(set(..)) whose order is unspecified; they
are modelled as first-occurrence dedup (no claim depends on the order). -/
def combine_chunks (chunk1 chunk2 : Chunk) : Chunk :=
  { chunk_id := chunk1.chunk_id
    document_id := chunk1.document_id
    category_id := chunk1.category_id
    section_title :=
      if chunk1.section_title = "" then chunk2.section_title
      else chunk1.section_title
    content := ⟨chunk1.content.data ++ '\n' :: '\n' :: chunk2.content.data⟩
    page_start := min chunk1.page_start chunk2.page_start
    page_end := max chunk1.page_end chunk2.page_end
    chunk_index := chunk1.chunk_index
    image_ids := (chunk1.image_ids ++ chunk2.image_ids).dedup
    table_ids := (chunk1.table_ids ++ chunk2.table_ids).dedup
    metadata := metaInsert chunk1.metadata "merged" (MetaVal.b true) }

/-- The while-loop of chunker.SectionChunker._merge_small_chunks, with the
already-emitted list as explicit state.  The comparison
combined <= max_chunk_size * 1.2 is modelled exactly as
10 * combined <= 12 * max (which agrees with the CPython float comparison
on the relevant ranges). -/
def msGo (cfg : ChunkerSettings) : List Chunk → List Chunk → List Chunk
  | [], merged => merged
  | current :: rest, merged =>
    if mergeThreshold cfg ≤ current.content.data.length then
      msGo cfg rest (merged ++ [current])
    else
      let tryPrev : List Chunk :=
        match merged.getLast? with
        | some prev =>
          if 10 * (prev.content.data.length + current.content.data.length) ≤
              12 * cfg.max_chunk_size then
            msGo cfg rest (merged.dropLast ++ [combine_chunks prev current])
          else if minChunkSize ≤ current.content.data.length then
            msGo cfg rest (merged ++ [current])
          else msGo cfg rest merged
        | none =>
          if minChunkSize ≤ current.content.data.length then
            msGo cfg rest (merged ++ [current])
          else msGo cfg rest merged
      match rest with
      | next :: rest2 =>
        if 10 * (current.content.data.length + next.content.data.length) ≤
            12 * cfg.max_chunk_size then
          msGo cfg rest2 (merged ++ [combine_chunks current next])
        else tryPrev
      | [] => tryPrev

/-- chunker.SectionChunker._merge_small_chunks. -/
def merge_small_chunks (cfg : ChunkerSettings) (chunks : List Chunk) :
    List Chunk :=
  if chunks.isEmpty then chunks else msGo cfg chunks []

/-- chunker.SectionChunker._apply_overlap.  The Python loop mutates the
chunks in place but never writes content, so reading chunks[i-1].content
sees the original value; the pure mapIdx below is therefore faithful. -/
def apply_overlap (cfg : ChunkerSettings) (chunks : List Chunk) : List Chunk :=
  if chunks.length < 2 then chunks
  else
    chunks.mapIdx (fun i c =>
      let ov := overlapChars cfg c.content.data.length
      let startText :=
        String.mk (pyStrip (sub2 (sub1
          (tailSlice (chunks.getD (i - 1) default).content.data ov))))
      let endText :=
        String.mk (pyStrip (sub2 (sub1 (tailSlice c.content.data ov))))
      let c1 := if 0 < i then { c with overlap_start := some startText } else c
      if i < chunks.length - 1 then { c1 with overlap_end := some endText }
      else c1)

/-- The final reindex loop of chunk_sections. -/
def reindexGo (document_id : String) (i : Nat) : List Chunk → List Chunk
  | [] => []
  | c :: cs =>
    { c with chunk_index := i,
             chunk_id := document_id ++ "_chunk_" ++ toString i } ::
      reindexGo document_id (i + 1) cs

def reindexChunks (document_id : String) (chunks : List Chunk) : List Chunk :=
  reindexGo document_id 0 chunks

/-- The per-piece loop of chunker.SectionChunker._split_large_section.
Pieces shorter than 50 characters (stripped) are dropped; page ranges are
interpolated proportionally by character offset (Python computes the ratio
in float and truncates with int(); this is modelled by exact integer
T-division, which agrees with truncation toward zero). -/
def slsGo (document_id : String) (sec : ParsedSection)
    (images : List ExtractedImage) (tables : List ExtractedTable)
    (category_id : String) (content : List Char) (total_parts : Nat) :
    List (List Char) → Nat → Nat → List Chunk
  | [], _, _ => []
  | ct :: rest, i, chunk_idx =>
    if (pyStrip ct).length < 50 then
      slsGo document_id sec images tables category_id content total_parts
        rest (i + 1) chunk_idx
    else
      let total_len : Nat := if content.length = 0 then 1 else content.length
      let start_pos : Nat := (findLit ct content).getD 0
      let end_pos : Nat := start_pos + ct.length
      let total_pages : Int := sec.page_end - sec.page_start + 1
      let cps0 : Int :=
        sec.page_start + Int.tdiv ((start_pos : Int) * total_pages) (total_len : Int)
      let cpe0 : Int :=
        sec.page_start + Int.tdiv ((end_pos : Int) * total_pages) (total_len : Int)
      let cps := max sec.page_start (min cps0 sec.page_end)
      let cpe := max sec.page_start (min cpe0 sec.page_end)
      let chunk_images := images.filter
        (fun img => cps ≤ img.page_number ∧ img.page_number ≤ cpe)
      let marker_ids := extract_table_ids_from_markers ct
      let chunk_table_ids :=
        if marker_ids.isEmpty then
          (tables.filter (fun t => cps ≤ t.page_number ∧ t.page_number ≤ cpe)).map
            (fun t => t.table_id.data)
        else marker_ids
      let chunk : Chunk :=
        { chunk_id := document_id ++ "_chunk_" ++ toString chunk_idx
          document_id := document_id
          category_id := category_id
          section_title := sec.title
          content := String.mk ct
          page_start := cps
          page_end := cpe
          chunk_index := chunk_idx
          image_ids := chunk_images.map (fun img => img.image_id)
          table_ids := chunk_table_ids.map (fun l => String.mk l)
          metadata :=
            [("section_level", MetaVal.i sec.level),
             ("is_split", MetaVal.b true),
             ("split_part", MetaVal.i ((i : Int) + 1)),
             ("total_parts", MetaVal.i (total_parts : Int)),
             ("has_tables", MetaVal.b (!chunk_table_ids.isEmpty)),
             ("has_images", MetaVal.b (!chunk_images.isEmpty))] }
      chunk :: slsGo document_id sec images tables category_id content
        total_parts rest (i + 1) (chunk_idx + 1)

/-- chunker.SectionChunker._split_large_section. -/
def split_large_section (cfg : ChunkerSettings) (document_id : String)
    (sec : ParsedSection) (content : List Char)
    (images : List ExtractedImage) (tables : List ExtractedTable)
    (start_index : Nat) (category_id : String) : List Chunk :=
  let chunk_size := cfg.max_chunk_size
  let chunk_overlap := overlapChars cfg chunk_size
  let text_chunks := recursive_split content chunk_size chunk_overlap
  slsGo document_id sec images tables category_id content
    text_chunks.length text_chunks 0 start_index

/-- chunker.SectionChunker._chunk_section. -/
def chunk_section (cfg : ChunkerSettings) (document_id : String)
    (sec : ParsedSection) (images : List ExtractedImage)
    (tables : List ExtractedTable) (start_index : Nat) (category_id : String)
    (repeated_headers : List (List Char)) : List Chunk :=
  let section_tables := tables.filter
    (fun t => sec.page_start ≤ t.page_number ∧ t.page_number ≤ sec.page_end)
  let section_images := images.filter
    (fun img => sec.page_start ≤ img.page_number ∧ img.page_number ≤ sec.page_end)
  let c1 := sub2 (sub1 sec.content.data)
  let c2 := clean_content c1 repeated_headers
  let rt := remove_tables_from_content c2 section_tables
  let content := rt.1
  let all_table_ids := section_tables.foldl
    (fun acc t =>
      if acc.contains t.table_id.data then acc else acc ++ [t.table_id.data])
    (extract_table_ids_from_markers content)
  if (pyStrip content).length < minChunkSize then []
  else if content.length ≤ cfg.max_chunk_size then
    [{ chunk_id := document_id ++ "_chunk_" ++ toString start_index
       document_id := document_id
       category_id := category_id
       section_title := sec.title
       content := String.mk content
       page_start := sec.page_start
       page_end := sec.page_end
       chunk_index := start_index
       image_ids := section_images.map (fun img => img.image_id)
       table_ids := all_table_ids.map (fun l => String.mk l)
       metadata :=
         [("section_level", MetaVal.i sec.level),
          ("has_tables", MetaVal.b (!all_table_ids.isEmpty)),
          ("has_images", MetaVal.b (!section_images.isEmpty)),
          ("table_count", MetaVal.i (all_table_ids.length : Int)),
          ("image_count", MetaVal.i (section_images.length : Int))] }]
  else
    split_large_section cfg document_id sec content section_images
      section_tables start_index category_id

/-- The per-sec loop of chunk_sections, threading the running chunk
index. -/
def csGo (cfg : ChunkerSettings) (document_id : String)
    (images : List ExtractedImage) (tables : List ExtractedTable)
    (category_id : String) (repeated_headers : List (List Char)) :
    List ParsedSection → Nat → List Chunk
  | [], _ => []
  | s :: ss, idx =>
    let sc := chunk_section cfg document_id s images tables idx category_id
      repeated_headers
    sc ++ csGo cfg document_id images tables category_id repeated_headers ss
      (idx + sc.length)

/-- chunker.SectionChunker.chunk_sections: detect boilerplate, chunk each
sec, merge small chunks, apply overlap, filter tiny chunks, reindex.
pm abstracts the curated boilerplate regex list (see
detect_repeated_headers). -/
def chunk_sections (pm : String → Bool) (cfg : ChunkerSettings)
    (document_id : String) (sections : List ParsedSection)
    (images : List ExtractedImage) (tables : List ExtractedTable)
    (category_id : String) : List Chunk :=
  let repeated_headers := detect_repeated_headers pm sections
  let chunks := csGo cfg document_id images tables category_id
    repeated_headers sections 0
  let chunks := merge_small_chunks cfg chunks
  let chunks := apply_overlap cfg chunks
  let chunks := chunks.filter
    (fun c => minChunkSize ≤ (pyStrip c.content.data).length)
  reindexChunks document_id chunks

/-! ## Unified search (app/services/search_service.py)

Scores are floats in Python; they are modelled over an arbitrary
LinearOrderedCommRing so every theorem holds for any numeric
interpretation (witnesses use Int).  The three per-collection searchers
call external collaborators (Qdrant, embedding models); their result lists
are therefore inputs of the embedding, exactly as they enter the ranking
pipeline in search() after the per-collection try/except. -/

structure SearchResult (α : Type) where
  content : String
  score : α
  source_type : String
  document_id : String
  page_number : Int
  section_title : String
  similarity_score : α
  chunk_id : Option String := none
  table_id : Option String := none
  image_id : Option String := none
  image_path : Option String := none
  related_image_ids : List String := []
  related_table_ids : List String := []
deriving DecidableEq

/-- Stable insertion step for descending sort by score: an element is
placed before the first element whose score is less than or equal to its
own, so earlier elements win ties.  This is extensionally the unique
stable descending sort, matching Python's list.sort(key=score,
reverse=True). -/
def insertDesc [LinearOrder α] (x : SearchResult α) :
    List (SearchResult α) → List (SearchResult α)
  | [] => [x]
  | y :: ys => if y.score ≤ x.score then x :: y :: ys else y :: insertDesc x ys

def sortByScoreDesc [LinearOrder α] : List (SearchResult α) → List (SearchResult α)
  | [] => []
  | x :: xs => insertDesc x (sortByScoreDesc xs)

/-- The per-type score weighting (result.score *= alpha). -/
def scaleScores [Mul α] (a : α) (l : List (SearchResult α)) :
    List (SearchResult α) :=
  l.map (fun r => { r with score := r.score * a })

/-- The rerank-score overwrite loop: for i, score in
enumerate(rerank_scores): preserve the original weighted score in
similarity_score and overwrite score.  Python indexes candidates by the
score list's positions; pairing positionally is the same computation. -/
def rescoreGo [LinearOrder α] : List (SearchResult α) → List α →
    List (SearchResult α)
  | [], _ => []
  | l, [] => l
  | c :: cs, s :: ss =>
    { c with similarity_score := c.score, score := s } :: rescoreGo cs ss

/-- The settings fields read by UnifiedSearchService.search. -/
structure SearchConfig (α : Type) where
  similarity_threshold : α
  use_reranker : Bool
  rerank_top_k : Nat

/-- The per-collection candidate budget max(3, top_k // active); it is
passed to the collaborators and does not otherwise enter the ranking
pipeline. -/
def perCollectionK (top_k active : Nat) : Nat := max 3 (top_k / active)

/-- The weighted candidate pool: each enabled type's collaborator results
with scores multiplied by that type's weight, concatenated in the fixed
text, tables, images order of search(). -/
def weightedPool [LinearOrderedCommRing α]
    (textResults tableResults imageResults : List (SearchResult α))
    (search_text search_tables search_images : Bool)
    (alpha_text alpha_tables alpha_images : α) : List (SearchResult α) :=
  (if search_text then scaleScores alpha_text textResults else []) ++
  (if search_tables then scaleScores alpha_tables tableResults else []) ++
  (if search_images then scaleScores alpha_images imageResults else [])

/-- UnifiedSearchService.search (search_service.py lines 99-188), from the
point where the per-collection results are back: weight, concatenate,
sort, truncate to the candidate budget, threshold-filter (only when the
threshold is positive), fall back to the top min(3, pool) when the filter
removed everything, optionally rerank via the cross encoder (abstracted
as rerankFn) and re-sort, finally slice to rerank_top_k. -/
def search [LinearOrderedCommRing α] (cfg : SearchConfig α) (query_text : String)
    (rerankFn : String → List String → List α)
    (textResults tableResults imageResults : List (SearchResult α))
    (search_text search_tables search_images : Bool)
    (alpha_text alpha_tables alpha_images : α) (top_k : Nat) :
    List (SearchResult α) :=
  let active := (cond search_text 1 0) + (cond search_tables 1 0) +
    (cond search_images 1 0)
  if active = 0 then []
  else
    let all_results := weightedPool textResults tableResults imageResults
      search_text search_tables search_images alpha_text alpha_tables alpha_images
    if all_results.isEmpty then []
    else
      let sorted := sortByScoreDesc all_results
      let cands0 := sorted.take top_k
      let cands1 :=
        if 0 < cfg.similarity_threshold then
          cands0.filter (fun r => cfg.similarity_threshold ≤ r.score)
        else cands0
      let cands2 :=
        if cands1.isEmpty then sorted.take (min 3 all_results.length)
        else cands1
      let cands3 :=
        if cfg.use_reranker ∧ ¬ cands2.isEmpty then
          sortByScoreDesc
            (rescoreGo cands2 (rerankFn query_text (cands2.map (fun r => r.content))))
        else cands2
      cands3.take cfg.rerank_top_k

/-! ## Rerank service (app/services/rerank_service.py)

The CrossEncoder collaborator is abstracted as a fallible predict
function; raising inside the try block is the error case.  The sigmoid
normalisation applied to successful raw logits is abstracted as a
function parameter (its values never matter to the claims in scope). -/

structure RerankModel (α : Type) where
  predict : List (String × String) → Except Unit (List α)

structure RerankService (α : Type) where
  initialized : Bool
  model : Option (RerankModel α)

/-- RerankService.rerank (rerank_service.py lines 44-74): uniform 1.0 when
the model never initialised or is absent; empty input gives empty output;
a successful predict is sigmoid-normalised; an exception at call time
degrades to uniform 0.0. -/
def RerankService.rerank [LinearOrderedCommRing α] (svc : RerankService α)
    (sigmoid : α → α) (query : String) (documents : List String) : List α :=
  if svc.initialized = false ∨ svc.model.isNone then
    List.replicate documents.length 1
  else
    match svc.model with
    | none => List.replicate documents.length 1
    | some m =>
      if documents.isEmpty then []
      else
        match m.predict (documents.map (fun d => (query, d))) with
        | Except.ok scores => scores.map sigmoid
        | Except.error _ => List.replicate documents.length 0

/-! ## Inline citation enrichment (app/controllers/query_controller.py,
lines 106-158)

Only the per-placeholder rewrite body (replace_citation) is embedded: the
surrounding re.sub supplies the captured source ordinal and page-range
text of each placeholder whose shape matches the pattern; an ordinal
missing from the map leaves the placeholder untouched (modelled as none). -/

structure CitationInfo where
  document_id : String
  filename : String
  section_title : String
  page_start : Int
  page_end : Int
deriving DecidableEq

structure InlineCitation where
  source_number : Nat
  document_id : String
  filename : String
  section_title : String
  pages : List Int
deriving DecidableEq

/-- Python str.isdigit restricted to ASCII decimal digits (the regex only
ever captures characters from the digit/hyphen/en-dash class). -/
def pyIsDigit (l : List Char) : Bool :=
  !l.isEmpty && l.all (fun c => '0' ≤ c && c ≤ '9')

def digitsToNat (l : List Char) : Nat :=
  l.foldl (fun n c => 10 * n + (c.toNat - '0'.toNat)) 0

/-- The page-parsing loop of replace_citation: split the captured range on
the ASCII hyphen, strip each part, keep the parts that are all digits. -/
def parsePages (page_range : String) : List Int :=
  (splitSub "-".data page_range.data).foldl (fun acc part =>
    let p := pyStrip part
    if pyIsDigit p then acc ++ [(digitsToNat p : Int)] else acc) []

/-- QueryController._enrich_inline_citations, body of replace_citation for
one matched placeholder: when the ordinal is in the map, produce the
rewritten text and the citation record, falling back to the chunk's own
page range when no token parsed; otherwise leave the placeholder
untouched. -/
def replaceCitation (chunk_doc_map : List (Nat × CitationInfo))
    (source_num : Nat) (page_range : String) :
    Option (String × InlineCitation) :=
  match chunk_doc_map.find? (fun p => p.1 = source_num) with
  | none => none
  | some (_, info) =>
    let pages := parsePages page_range
    let pages := if pages.isEmpty then [info.page_start, info.page_end] else pages
    some ("[" ++ info.filename ++ ", Page " ++ page_range ++ "]",
      { source_number := source_num
        document_id := info.document_id
        filename := info.filename
        section_title := info.section_title
        pages := pages })

def c6info : CitationInfo := ⟨"d1", "well.pdf", "Sec 2", 7, 9⟩

/-- The chunk list just before the final reindex step: per-section
chunking, merge-small, apply-overlap, tiny filter.  Definitionally the
argument chunk_sections hands to the reindex loop. -/
def preReindexChunks (pm : String → Bool) (cfg : ChunkerSettings)
    (document_id : String) (sections : List ParsedSection)
    (images : List ExtractedImage) (tables : List ExtractedTable)
    (category_id : String) : List Chunk :=
  (apply_overlap cfg (merge_small_chunks cfg
    (csGo cfg document_id images tables category_id
      (detect_repeated_headers pm sections) sections 0))).filter
    (fun c => minChunkSize ≤ (pyStrip c.content.data).length)

def c9chunkA : Chunk :=
  ⟨"x_chunk_0", "x", "", "A", ⟨List.replicate 40 'a'⟩, 1, 1, 0, [], [], none, none, []⟩

def c9chunkB : Chunk :=
  ⟨"x_chunk_1", "x", "", "B", ⟨List.replicate 50 'b'⟩, 1, 1, 1, [], [], none, none, []⟩

/-- A raw pipe-delimited line: two or more pipe characters, not a
[TABLE:id] marker line and not the [TABLE_REMOVED] marker itself. -/
def rawPipeLine (l : List Char) : Bool :=
  decide (2 ≤ countChar '|' l) && !(tableMarkerIdAt (pyStrip l)).isSome &&
    decide (l ≠ tableRemovedLine)

/-- The count a counter association list assigns to a key. -/
def ctrCount : List (List Char × Nat) → List Char → Nat
  | [], _ => 0
  | (k', n) :: rest, k => if k' = k then n else ctrCount rest k

def c5sections : List ParsedSection :=
  (List.range 16).map (fun i =>
    ⟨"S", 1,
      if i < 3 then "REPEATED HEADER LINE"
      else String.mk ("UNIQUE FILLER NUMBER ".data ++ [Char.ofNat (65 + i)]),
      1, 1⟩)

/-- The number of results of a given source type in a result list. -/
def countSourceType [LinearOrder α] (t : String) (l : List (SearchResult α)) : Nat :=
  l.countP (fun r => r.source_type = t)

def c8results : List (SearchResult Int) :=
  [⟨"r1", 5, "text", "d", 1, "", 0, none, none, none, none, [], []⟩,
   ⟨"r2", 1, "text", "d", 1, "", 0, none, none, none, none, [], []⟩,
   ⟨"r3", 1, "text", "d", 1, "", 0, none, none, none, none, [], []⟩]

def c8wres : List (SearchResult Int) :=
  [⟨"w1", 3, "text", "d", 1, "", 0, none, none, none, none, [], []⟩]

theorem dropLit_eq_append {lit l r : List Char} (h : dropLit lit l = some r) :
    l = lit ++ r := by
  induction lit generalizing l with
  | nil =>
    simp only [dropLit, Option.some.injEq] at h
    simp [h]
  | cons c cs ih =>
    cases l with
    | nil => simp [dropLit] at h
    | cons d ds =>
      by_cases hc : c = d
      · subst hc
        simp only [dropLit, if_pos rfl] at h
        simpa using ih h
      · simp [dropLit, hc] at h

theorem dropLit_length_le {lit l r : List Char} (h : dropLit lit l = some r) :
    r.length ≤ l.length := by
  have := dropLit_eq_append h
  subst this
  simp

theorem hasLit_of_head {pat l : List Char} (h : (dropLit pat l).isSome) :
    hasLit pat l = true := by
  cases l <;> simp [hasLit, h]

theorem hasLit_of_tail {pat : List Char} {c : Char} {cs : List Char}
    (h : hasLit pat cs = true) : hasLit pat (c :: cs) = true := by
  simp [hasLit, h]

theorem hasLit_of_suffix {pat l₂ l₁ : List Char} (hs : l₂ <:+ l₁)
    (h : hasLit pat l₂ = true) : hasLit pat l₁ = true := by
  obtain ⟨t, rfl⟩ := hs
  induction t with
  | nil => simpa using h
  | cons c cs ih => exact hasLit_of_tail ih

theorem dropWhile_suffix (p : Char → Bool) (l : List Char) :
    l.dropWhile p <:+ l := by
  induction l with
  | nil => simp
  | cons c cs ih =>
    by_cases h : p c
    · simp only [List.dropWhile_cons, h, if_pos]
      exact ih.trans (List.suffix_cons c cs)
    · simp [List.dropWhile_cons, h]

theorem dropWhile_length_lt_of_takeWhile_ne_nil {p : Char → Bool} {l : List Char}
    (h : ¬ (l.takeWhile p).isEmpty = true) :
    (l.dropWhile p).length < l.length := by
  cases l with
  | nil => simp [List.takeWhile] at h
  | cons c cs =>
    by_cases hp : p c
    · simp only [List.dropWhile_cons, hp, if_pos]
      have := (dropWhile_suffix p cs).length_le
      simp only [List.length_cons]; omega
    · rw [List.takeWhile_cons] at h; simp [hp] at h

theorem mPat1_rest_lt {l rep rest : List Char} (h : mPat1 l = some (rep, rest)) :
    rest.length < l.length := by
  unfold mPat1 at h
  split at h
  · exact absurd h (by simp)
  case _ r0 h0 =>
  split at h
  · exact absurd h (by simp)
  case _ r2 h1 =>
  split at h
  · exact absurd h (by simp)
  case _ r3 h2 =>
  split at h
  · exact absurd h (by simp)
  case _ hne1 =>
  split at h
  · exact absurd h (by simp)
  case _ r5 h4 =>
  split at h
  · exact absurd h (by simp)
  case _ hne2 =>
  split at h
  · exact absurd h (by simp)
  case _ r6 h6 =>
  have hr : rest = r6 := by
    have := Option.some.inj h
    exact (congrArg Prod.snd this).symm
  subst hr
  have hl : l = "![".data ++ r0 := dropLit_eq_append h0
  have e6 : rest.length < (r5.dropWhile (fun c => c ≠ ')')).length + 1 := by
    have := dropLit_eq_append h6
    have : (r5.dropWhile (fun c => c ≠ ')')).length = 1 + rest.length := by
      rw [this]; simp; omega
    omega
  have e5 : (r5.dropWhile (fun c => c ≠ ')')).length < r5.length :=
    dropWhile_length_lt_of_takeWhile_ne_nil hne2
  have e4 : r5.length ≤ (r3.dropWhile (fun c => c ≠ ';')).length :=
    dropLit_length_le h4
  have e3 : (r3.dropWhile (fun c => c ≠ ';')).length ≤ r3.length :=
    (dropWhile_suffix _ r3).length_le
  have e2 : r3.length ≤ r2.length := dropLit_length_le h2
  have e1 : r2.length ≤ (r0.dropWhile (fun c => c ≠ ']')).length :=
    dropLit_length_le h1
  have e0 : (r0.dropWhile (fun c => c ≠ ']')).length ≤ r0.length :=
    (dropWhile_suffix _ r0).length_le
  have el : l.length = r0.length + 2 := by rw [hl]; simp
  omega

theorem mPat2_rest_lt {l rep rest : List Char} (h : mPat2 l = some (rep, rest)) :
    rest.length < l.length := by
  unfold mPat2 at h
  split at h
  · exact absurd h (by simp)
  case _ r1 h1 =>
  split at h
  · exact absurd h (by simp)
  case _ hne1 =>
  split at h
  · exact absurd h (by simp)
  case _ r3 h3 =>
  split at h
  · exact absurd h (by simp)
  case _ hne2 =>
  have hr : rest = r3.dropWhile b64Char := by
    have := Option.some.inj h
    exact (congrArg Prod.snd this).symm
  subst hr
  have hl : l = dataImageLit ++ r1 := dropLit_eq_append h1
  have e3 : (r3.dropWhile b64Char).length < r3.length :=
    dropWhile_length_lt_of_takeWhile_ne_nil hne2
  have e2 : r3.length ≤ (r1.dropWhile (fun c => c ≠ ';')).length :=
    dropLit_length_le h3
  have e1 : (r1.dropWhile (fun c => c ≠ ';')).length ≤ r1.length :=
    (dropWhile_suffix _ r1).length_le
  have el : l.length = r1.length + 11 := by rw [hl]; simp [dataImageLit]
  omega

theorem mTableMarker_rest_lt {l idc rest : List Char}
    (h : mTableMarker l = some (idc, rest)) : rest.length < l.length := by
  unfold mTableMarker at h
  split at h
  · exact absurd h (by simp)
  case _ r h0 =>
  split at h
  · exact absurd h (by simp)
  case _ hne =>
  split at h
  · exact absurd h (by simp)
  case _ r2 h1 =>
  simp only [Option.some.injEq, Prod.mk.injEq] at h
  obtain ⟨-, hrest⟩ := h
  rw [← hrest]
  have e2 : (r.dropWhile (fun c => c ≠ ']')).length = 1 + r2.length := by
    rw [dropLit_eq_append h1]; simp; omega
  have e1 : (r.dropWhile (fun c => c ≠ ']')).length ≤ r.length :=
    (dropWhile_suffix _ r).length_le
  have e0 : l.length = r.length + 7 := by
    rw [dropLit_eq_append h0]; simp
  omega

theorem chooseSepGo_snd_lt {text : List Char} {seps : List (List Char)}
    {s : List Char} {ns : List (List Char)}
    (h : chooseSepGo text seps = some (s, ns)) : ns.length < seps.length := by
  induction seps with
  | nil => simp [chooseSepGo] at h
  | cons sep rest ih =>
    by_cases h1 : sep.isEmpty
    · simp only [chooseSepGo, h1, if_pos] at h
      obtain ⟨-, h2⟩ := Prod.mk.injEq .. ▸ Option.some.inj h
      subst h2
      simp
    · by_cases h2 : hasLit sep text
      · simp only [chooseSepGo, h1, h2, if_neg, if_pos, Bool.false_eq_true,
          not_false_iff] at h
        obtain ⟨-, h3⟩ := Prod.mk.injEq .. ▸ Option.some.inj h
        subst h3
        simp
      · simp only [chooseSepGo, h1, h2, Bool.false_eq_true, not_false_iff,
          if_neg] at h
        exact Nat.lt_succ_of_lt (ih h)

theorem chooseSep_snd_lt {seps : List (List Char)} (text : List Char)
    (hne : seps ≠ []) : (chooseSep seps text).2.length < seps.length := by
  unfold chooseSep
  split
  case _ r h =>
    obtain ⟨s, ns⟩ := r
    exact chooseSepGo_snd_lt h
  case _ h =>
    cases seps with
    | nil => exact absurd rfl hne
    | cons a rest => simp

/-! ## Theorems -/

theorem mPat1_some_hasLit {l : List Char} {v : List Char × List Char}
    (h : mPat1 l = some v) : hasLit dataImageLit l = true := by
  unfold mPat1 at h
  split at h
  · exact absurd h (by simp)
  case _ r0 h0 =>
  split at h
  · exact absurd h (by simp)
  case _ r2 h1 =>
  split at h
  · exact absurd h (by simp)
  case _ r3 h2 =>
  have hr2 : hasLit dataImageLit r2 = true := by
    apply hasLit_of_head
    rw [h2]
    rfl
  have hsub2 : r2 <:+ r0.dropWhile (fun c => c ≠ ']') := by
    rw [dropLit_eq_append h1]
    exact List.suffix_append _ r2
  have hsub0 : r2 <:+ r0 := hsub2.trans (dropWhile_suffix _ r0)
  have hsubl : r2 <:+ l := by
    rw [dropLit_eq_append h0]
    exact hsub0.trans (List.suffix_append _ r0)
  exact hasLit_of_suffix hsubl hr2

theorem mPat2_some_hasLit {l : List Char} {v : List Char × List Char}
    (h : mPat2 l = some v) : hasLit dataImageLit l = true := by
  unfold mPat2 at h
  split at h
  · exact absurd h (by simp)
  case _ r1 h1 =>
  apply hasLit_of_head
  rw [h1]
  rfl

theorem hasLit_cons_false {pat : List Char} {c : Char} {cs : List Char}
    (h : hasLit pat (c :: cs) = false) : hasLit pat cs = false := by
  simp only [hasLit, Bool.or_eq_false_iff] at h
  exact h.2

theorem sub1Fuel_id_of_clean {l : List Char} (fuel : Nat)
    (h : hasLit dataImageLit l = false) : sub1Fuel fuel l = l := by
  induction fuel generalizing l with
  | zero => cases l <;> rfl
  | succ fuel ih =>
    cases l with
    | nil => rfl
    | cons c cs =>
      have hm : mPat1 (c :: cs) = none := by
        cases hp : mPat1 (c :: cs) with
        | none => rfl
        | some v => rw [mPat1_some_hasLit hp] at h; exact absurd h (by simp)
      simp only [sub1Fuel, hm]
      rw [ih (hasLit_cons_false h)]

theorem sub2Fuel_id_of_clean {l : List Char} (fuel : Nat)
    (h : hasLit dataImageLit l = false) : sub2Fuel fuel l = l := by
  induction fuel generalizing l with
  | zero => cases l <;> rfl
  | succ fuel ih =>
    cases l with
    | nil => rfl
    | cons c cs =>
      have hm : mPat2 (c :: cs) = none := by
        cases hp : mPat2 (c :: cs) with
        | none => rfl
        | some v => rw [mPat2_some_hasLit hp] at h; exact absurd h (by simp)
      simp only [sub2Fuel, hm]
      rw [ih (hasLit_cons_false h)]

/-- C10 (amended): strip_base64_images is idempotent on every input whose
one-pass output is free of the data-URI introducer; on such outputs both
regex passes match nothing, so a second call is the identity.  (In general
the function is not idempotent: see the counterexample.) -/
theorem strip_base64_images_idempotent_of_clean (s : String)
    (h : hasLit dataImageLit (strip_base64_images s).data = false) :
    strip_base64_images (strip_base64_images s) = strip_base64_images s := by
  have h' : hasLit dataImageLit (sub2 (sub1 s.data)) = false := h
  have e1 : sub1 (sub2 (sub1 s.data)) = sub2 (sub1 s.data) :=
    sub1Fuel_id_of_clean _ h'
  have e2 : sub2 (sub2 (sub1 s.data)) = sub2 (sub1 s.data) :=
    sub2Fuel_id_of_clean _ h'
  show (⟨sub2 (sub1 (sub2 (sub1 s.data)))⟩ : String) = ⟨sub2 (sub1 s.data)⟩
  rw [e1, e2]

/-- C10 witness for the amended theorem: a markdown base64 image is
removed in one pass, the output is clean, and a second pass changes
nothing. -/
theorem strip_base64_images_idempotent_witness :
    strip_base64_images (strip_base64_images "hello ![x](data:image/png;base64,AA) world") =
      strip_base64_images "hello ![x](data:image/png;base64,AA) world" :=
  strip_base64_images_idempotent_of_clean
    "hello ![x](data:image/png;base64,AA) world" (by decide)

/-- C10 counterexample: strip_base64_images is not idempotent as claimed.
The first pass rewrites the inner markdown image of the input to
"![Image: a](data:image/p;base64,!x)" (the remaining data URI matches
neither regex because the character after the comma is not in the base64
class), and the second call re-parses that as a fresh markdown image,
producing "[Image: Image: a]". -/
theorem strip_base64_images_not_idempotent :
    strip_base64_images (strip_base64_images
        "!![a](data:image/p;base64,Q)(data:image/p;base64,!x)") ≠
      strip_base64_images "!![a](data:image/p;base64,Q)(data:image/p;base64,!x)" := by
  decide

/-- C2 (amended): the two failure modes of RerankService.rerank degrade to
uniform scores but with different values: a model that never loaded (or a
service never initialised) yields 1.0 per candidate, while a model that
raises at call time yields 0.0 per candidate; neither mode propagates the
error. -/
theorem rerank_failure_modes {α : Type} [LinearOrderedCommRing α]
    (svc : RerankService α) (sigmoid : α → α) (q : String) (docs : List String) :
    (svc.initialized = false ∨ svc.model = none →
      svc.rerank sigmoid q docs = List.replicate docs.length 1) ∧
    (∀ m : RerankModel α, svc.model = some m → svc.initialized = true →
      m.predict (docs.map (fun d => (q, d))) = Except.error () →
      svc.rerank sigmoid q docs = List.replicate docs.length 0) := by
  constructor
  · intro h
    unfold RerankService.rerank
    have : (svc.initialized = false ∨ svc.model.isNone = true) := by
      rcases h with h | h
      · exact Or.inl h
      · exact Or.inr (by rw [h]; rfl)
    rw [if_pos this]
  · intro m hm hinit herr
    unfold RerankService.rerank
    rw [if_neg (by simp [hinit, hm])]
    rw [hm]
    cases docs with
    | nil => simp
    | cons d ds =>
      rw [List.map_cons] at herr
      simp [herr]

/-- C2 witness: both failure modes at concrete inputs, obtained from the
amended theorem. -/
theorem rerank_failure_modes_witness :
    RerankService.rerank (α := Int) ⟨false, none⟩ id "q" ["a", "b"] = [1, 1] ∧
    RerankService.rerank (α := Int) ⟨true, some ⟨fun _ => Except.error ()⟩⟩
      id "q" ["a", "b"] = [0, 0] := by
  constructor
  · exact (rerank_failure_modes ⟨false, none⟩ id "q" ["a", "b"]).1 (Or.inl rfl)
  · exact (rerank_failure_modes ⟨true, some ⟨fun _ => Except.error ()⟩⟩
      id "q" ["a", "b"]).2 ⟨fun _ => Except.error ()⟩ rfl rfl rfl

/-- C2 counterexample: the claim says a model that errors at call time
also returns the uniform neutral score 1.0 per candidate; in the code the
except branch returns 0.0 per candidate instead. -/
theorem rerank_calltime_error_returns_zero :
    RerankService.rerank (α := Int) ⟨true, some ⟨fun _ => Except.error ()⟩⟩
        id "q" ["doc"] = [0] ∧
    RerankService.rerank (α := Int) ⟨true, some ⟨fun _ => Except.error ()⟩⟩
        id "q" ["doc"] ≠ [1] := by
  constructor
  · rfl
  · decide

/-- C6 (amended): for a placeholder whose ordinal is in the mapping, the
structured record's pages are the numeric tokens of the page range split
on the ASCII hyphen only; when no token parses — including for an en-dash
range such as "3–4", which is not split — the pages fall back to the
matched chunk's own page_start/page_end. -/
theorem citation_pages_amended (m : List (Nat × CitationInfo)) (n : Nat)
    (info : CitationInfo) (pr : String)
    (hm : m.find? (fun p => p.1 = n) = some (n, info)) :
    (replaceCitation m n pr =
      some ("[" ++ info.filename ++ ", Page " ++ pr ++ "]",
        { source_number := n
          document_id := info.document_id
          filename := info.filename
          section_title := info.section_title
          pages := if (parsePages pr).isEmpty then [info.page_start, info.page_end]
                   else parsePages pr })) ∧
    parsePages "3–4" = [] ∧
    parsePages "12-5" = [12, 5] := by
  refine ⟨?_, by decide, by decide⟩
  unfold replaceCitation
  rw [hm]

/-- C6 witness for the amended theorem: with the ordinal mapped to a chunk
spanning pages 7-9, the en-dash range "3–4" produces the fallback pages
[7, 9]. -/
theorem citation_pages_amended_witness :
    replaceCitation [(1, c6info)] 1 "3–4" =
      some ("[well.pdf, Page 3–4]", ⟨1, "d1", "well.pdf", "Sec 2", [7, 9]⟩) := by
  have h := (citation_pages_amended [(1, c6info)] 1 c6info "3–4" (by rfl)).1
  rw [h]
  decide

/-- C6 counterexample: the claim says an en-dash range such as "3–4"
yields pages [3, 4]; the code splits on the ASCII hyphen only, so no
token parses and the record falls back to the chunk's own pages. -/
theorem citation_endash_falls_back :
    (replaceCitation [(1, c6info)] 1 "3–4").map (fun r => r.2.pages) = some [7, 9] ∧
    (replaceCitation [(1, c6info)] 1 "3–4").map (fun r => r.2.pages) ≠ some [3, 4] := by
  decide

theorem chunk_sections_eq_reindex (pm : String → Bool) (cfg : ChunkerSettings)
    (document_id : String) (sections : List ParsedSection)
    (images : List ExtractedImage) (tables : List ExtractedTable)
    (category_id : String) :
    chunk_sections pm cfg document_id sections images tables category_id =
      reindexGo document_id 0
        (preReindexChunks pm cfg document_id sections images tables category_id) := rfl

theorem reindexGo_getElem? (d : String) (i : Nat) (l : List Chunk) (j : Nat) :
    (reindexGo d i l)[j]? = (l[j]?).map (fun c =>
      { c with chunk_index := i + j,
               chunk_id := d ++ "_chunk_" ++ toString (i + j) }) := by
  induction l generalizing i j with
  | nil => simp [reindexGo]
  | cons c cs ih =>
    cases j with
    | zero => simp [reindexGo]
    | succ j =>
      simp only [reindexGo, List.getElem?_cons_succ]
      rw [ih]
      have e : i + 1 + j = i + (j + 1) := by omega
      rw [e]

/-- C3: after the final reindex step, the chunk at position i of
chunk_sections' output carries chunk_index i and chunk_id
document_id ++ "_chunk_" ++ i, for every position — so indices are exactly
0..N-1 in list order, with no gaps and no duplicates, for every input. -/
theorem chunk_sections_ids_dense (pm : String → Bool) (cfg : ChunkerSettings)
    (document_id : String) (sections : List ParsedSection)
    (images : List ExtractedImage) (tables : List ExtractedTable)
    (category_id : String) (i : Nat) (c : Chunk)
    (h : (chunk_sections pm cfg document_id sections images tables category_id)[i]? =
      some c) :
    c.chunk_index = i ∧ c.chunk_id = document_id ++ "_chunk_" ++ toString i := by
  rw [chunk_sections_eq_reindex, reindexGo_getElem?] at h
  rcases hl : (preReindexChunks pm cfg document_id sections images tables
      category_id)[i]? with _ | c₀
  · rw [hl] at h; simp at h
  · rw [hl] at h
    simp only [Option.map_some', Option.some.injEq] at h
    rw [← h]
    exact ⟨by simp, by simp⟩

/-- C3 witness: a one-section document; the single produced chunk sits at
position 0 with chunk_index 0 and chunk_id "d1_chunk_0". -/
theorem chunk_sections_ids_dense_witness :
    ∃ c : Chunk,
      (chunk_sections (fun _ => false) ⟨500, 1, 5⟩ "d1"
        [⟨"Intro", 1, ⟨List.replicate 120 'x'⟩, 1, 1⟩] [] [] "catA")[0]? = some c ∧
      c.chunk_index = 0 ∧ c.chunk_id = "d1_chunk_0" := by
  have h0 : ((chunk_sections (fun _ => false) ⟨500, 1, 5⟩ "d1"
      [⟨"Intro", 1, ⟨List.replicate 120 'x'⟩, 1, 1⟩] [] [] "catA")[0]?).isSome = true := by
    decide
  obtain ⟨c, hc⟩ := Option.isSome_iff_exists.mp h0
  exact ⟨c, hc, chunk_sections_ids_dense (fun _ => false) ⟨500, 1, 5⟩ "d1"
    [⟨"Intro", 1, ⟨List.replicate 120 'x'⟩, 1, 1⟩] [] [] "catA" 0 c hc⟩

theorem pyStrip_length_le (l : List Char) : (pyStrip l).length ≤ l.length := by
  unfold pyStrip
  calc ((l.dropWhile pyWS).reverse.dropWhile pyWS).reverse.length
      = ((l.dropWhile pyWS).reverse.dropWhile pyWS).length := by simp
    _ ≤ (l.dropWhile pyWS).reverse.length :=
        (dropWhile_suffix pyWS (l.dropWhile pyWS).reverse).length_le
    _ = (l.dropWhile pyWS).length := by simp
    _ ≤ l.length := (dropWhile_suffix pyWS l).length_le

theorem reindexGo_mem {d : String} {i : Nat} {l : List Chunk} {c : Chunk}
    (h : c ∈ reindexGo d i l) : ∃ c₀ ∈ l, c.content = c₀.content := by
  induction l generalizing i with
  | nil => simp [reindexGo] at h
  | cons x xs ih =>
    simp only [reindexGo, List.mem_cons] at h
    rcases h with h | h
    · exact ⟨x, List.mem_cons_self x xs, by rw [h]⟩
    · obtain ⟨c₀, hc₀, he⟩ := ih h
      exact ⟨c₀, List.mem_cons_of_mem x hc₀, he⟩

/-- C4 (amended): every chunk emitted by chunk_sections has stripped
content length at least min_chunk_size (= 100), hence content length at
least min_chunk_size — the final tiny-chunk filter guarantees the lower
bound for every chunk, merged or not.  (The claimed upper bound
max_chunk_size does not hold: see the counterexample.) -/
theorem chunk_sections_min_size (pm : String → Bool) (cfg : ChunkerSettings)
    (document_id : String) (sections : List ParsedSection)
    (images : List ExtractedImage) (tables : List ExtractedTable)
    (category_id : String) :
    ∀ c ∈ chunk_sections pm cfg document_id sections images tables category_id,
      minChunkSize ≤ (pyStrip c.content.data).length ∧
      minChunkSize ≤ c.content.data.length := by
  intro c hc
  rw [chunk_sections_eq_reindex] at hc
  obtain ⟨c₀, hc₀, he⟩ := reindexGo_mem hc
  have hp := List.of_mem_filter hc₀
  simp only [decide_eq_true_eq] at hp
  refine ⟨by rw [he]; exact hp, ?_⟩
  calc minChunkSize ≤ (pyStrip c₀.content.data).length := hp
    _ ≤ c₀.content.data.length := pyStrip_length_le _
    _ = c.content.data.length := by rw [he]

/-- C4 witness for the amended theorem, at a concrete one-section
document. -/
theorem chunk_sections_min_size_witness :
    minChunkSize ≤ (pyStrip ((chunk_sections (fun _ => false) ⟨500, 1, 5⟩ "d1"
      [⟨"Intro", 1, ⟨List.replicate 120 'x'⟩, 1, 1⟩] [] [] "catA").headD
        default).content.data).length := by
  have h := chunk_sections_min_size (fun _ => false) ⟨500, 1, 5⟩ "d1"
    [⟨"Intro", 1, ⟨List.replicate 120 'x'⟩, 1, 1⟩] [] [] "catA"
    ((chunk_sections (fun _ => false) ⟨500, 1, 5⟩ "d1"
      [⟨"Intro", 1, ⟨List.replicate 120 'x'⟩, 1, 1⟩] [] [] "catA").headD default)
    (by decide)
  exact h.1

/-- C4 counterexample: a merged chunk can exceed max_chunk_size.  With
max_chunk_size = 500 and two adjacent sections of 120 and 460 characters,
the first chunk is below the merge threshold (150) and the pair combines
(120 + 460 = 580 <= 1.2 * 500), producing one merged chunk of 582
characters (the two-newline separator included) — above max_chunk_size,
refuting the claim that no emitted chunk has content length above the
maximum. -/
theorem chunk_sections_can_exceed_max :
    ¬ (∀ c ∈ chunk_sections (fun _ => false) ⟨500, 1, 5⟩ "d2"
        [⟨"A", 1, ⟨List.replicate 120 'a'⟩, 1, 1⟩,
         ⟨"B", 2, ⟨List.replicate 460 'b'⟩, 1, 1⟩] [] [] "",
        c.content.data.length ≤ (⟨500, 1, 5⟩ : ChunkerSettings).max_chunk_size) := by
  decide

/-- C9: for a list of at least two chunks, _apply_overlap keeps the number
and order of chunks; at every position the content, ids, pages, index and
metadata are unchanged; every chunk except the first gets overlap_start =
the stripped, image-stripped tail of the previous chunk's content sized by
the overlap fraction of the receiving chunk's own content length; every
chunk except the last gets overlap_end = its own tail under the same
sizing rule; the first chunk's overlap_start and the last chunk's
overlap_end are left as they were. -/
theorem apply_overlap_spec (cfg : ChunkerSettings) (chunks : List Chunk)
    (h2 : 2 ≤ chunks.length) (i : Nat) (hi : i < chunks.length) :
    (apply_overlap cfg chunks).length = chunks.length ∧
    ∀ ho : i < (apply_overlap cfg chunks).length,
      (((apply_overlap cfg chunks).get ⟨i, ho⟩).content =
          (chunks.get ⟨i, hi⟩).content ∧
        ((apply_overlap cfg chunks).get ⟨i, ho⟩).chunk_id =
          (chunks.get ⟨i, hi⟩).chunk_id ∧
        ((apply_overlap cfg chunks).get ⟨i, ho⟩).document_id =
          (chunks.get ⟨i, hi⟩).document_id ∧
        ((apply_overlap cfg chunks).get ⟨i, ho⟩).category_id =
          (chunks.get ⟨i, hi⟩).category_id ∧
        ((apply_overlap cfg chunks).get ⟨i, ho⟩).section_title =
          (chunks.get ⟨i, hi⟩).section_title ∧
        ((apply_overlap cfg chunks).get ⟨i, ho⟩).page_start =
          (chunks.get ⟨i, hi⟩).page_start ∧
        ((apply_overlap cfg chunks).get ⟨i, ho⟩).page_end =
          (chunks.get ⟨i, hi⟩).page_end ∧
        ((apply_overlap cfg chunks).get ⟨i, ho⟩).chunk_index =
          (chunks.get ⟨i, hi⟩).chunk_index ∧
        ((apply_overlap cfg chunks).get ⟨i, ho⟩).image_ids =
          (chunks.get ⟨i, hi⟩).image_ids ∧
        ((apply_overlap cfg chunks).get ⟨i, ho⟩).table_ids =
          (chunks.get ⟨i, hi⟩).table_ids ∧
        ((apply_overlap cfg chunks).get ⟨i, ho⟩).metadata =
          (chunks.get ⟨i, hi⟩).metadata) ∧
      (0 < i →
        ((apply_overlap cfg chunks).get ⟨i, ho⟩).overlap_start =
          some (String.mk (pyStrip (sub2 (sub1 (tailSlice
            (chunks.getD (i - 1) default).content.data
            (overlapChars cfg (chunks.get ⟨i, hi⟩).content.data.length))))))) ∧
      (i = 0 →
        ((apply_overlap cfg chunks).get ⟨i, ho⟩).overlap_start =
          (chunks.get ⟨i, hi⟩).overlap_start) ∧
      (i < chunks.length - 1 →
        ((apply_overlap cfg chunks).get ⟨i, ho⟩).overlap_end =
          some (String.mk (pyStrip (sub2 (sub1 (tailSlice
            (chunks.get ⟨i, hi⟩).content.data
            (overlapChars cfg (chunks.get ⟨i, hi⟩).content.data.length))))))) ∧
      (¬ i < chunks.length - 1 →
        ((apply_overlap cfg chunks).get ⟨i, ho⟩).overlap_end =
          (chunks.get ⟨i, hi⟩).overlap_end) := by
  have hne : ¬ chunks.length < 2 := by omega
  have hlen : (apply_overlap cfg chunks).length = chunks.length := by
    unfold apply_overlap
    rw [if_neg hne]
    simp
  refine ⟨hlen, ?_⟩
  intro ho
  unfold apply_overlap
  simp only [hne, if_false, List.get_eq_getElem, List.getElem_mapIdx]
  by_cases h0 : 0 < i
  · by_cases hl : i < chunks.length - 1
    · simp [h0, hl, Nat.pos_iff_ne_zero.mp h0]
    · simp [h0, hl, Nat.pos_iff_ne_zero.mp h0]
  · have hz : i = 0 := by omega
    subst hz
    have hl1 : 1 < chunks.length := by omega
    have hl2 : 0 < chunks.length - 1 := by omega
    simp [h0, hl1, hl2]

/-- C9 witness: two concrete chunks; the second chunk's content is
untouched and its overlap_start is the sized tail of the first chunk's
content. -/
theorem apply_overlap_spec_witness :
    ∃ ho : 1 < (apply_overlap defaultSettings [c9chunkA, c9chunkB]).length,
      ((apply_overlap defaultSettings [c9chunkA, c9chunkB]).get ⟨1, ho⟩).content =
        c9chunkB.content ∧
      ((apply_overlap defaultSettings [c9chunkA, c9chunkB]).get ⟨1, ho⟩).overlap_start =
        some (String.mk (pyStrip (sub2 (sub1 (tailSlice c9chunkA.content.data
          (overlapChars defaultSettings c9chunkB.content.data.length)))))) := by
  have h := apply_overlap_spec defaultSettings [c9chunkA, c9chunkB]
    (by decide) 1 (by decide)
  have ho : 1 < (apply_overlap defaultSettings [c9chunkA, c9chunkB]).length := by
    rw [h.1]; decide
  obtain ⟨hframe, hstart, -, -, -⟩ := h.2 ho
  exact ⟨ho, hframe.1, hstart (by decide)⟩

theorem rawPipeLine_false_of_marker {l : List Char}
    (h : (tableMarkerIdAt (pyStrip l)).isSome = true) : rawPipeLine l = false := by
  simp [rawPipeLine, h]

theorem rawPipeLine_false_of_few_pipes {l : List Char}
    (h : ¬ 2 ≤ countChar '|' l) : rawPipeLine l = false := by
  simp [rawPipeLine, h]

theorem noTwoRaw_of_right {a b : List Char} (h : rawPipeLine b = false) :
    ¬ (rawPipeLine a = true ∧ rawPipeLine b = true) := by
  intro hc
  rw [h] at hc
  exact absurd hc.2 (by simp)

theorem chain_flush (tl : List (List Char)) (it : Bool) :
    List.Chain' (fun a b => ¬ (rawPipeLine a = true ∧ rawPipeLine b = true))
      (if it = true then (if 2 ≤ tl.length then [tableRemovedLine] else tl)
       else []) := by
  by_cases h1 : it = true
  · by_cases h2 : 2 ≤ tl.length
    · simp [h1, h2]
    · have : tl.length ≤ 1 := by omega
      rcases tl with _ | ⟨x, ⟨⟩ | ⟨y, ys⟩⟩
      · simp [h1, h2]
      · simp [h1, h2]
      · simp at this
  · simp [h1]

theorem rtlGo_chain (lines : List (List Char)) :
    ∀ (tl : List (List Char)) (it : Bool),
      List.Chain' (fun a b => ¬ (rawPipeLine a = true ∧ rawPipeLine b = true))
        (rtlGo lines tl it) := by
  induction lines with
  | nil =>
    intro tl it
    unfold rtlGo
    split <;> simp
  | cons l ls ih =>
    intro tl it
    unfold rtlGo
    by_cases hm : (tableMarkerIdAt (pyStrip l)).isSome = true
    · rw [if_pos hm]
      refine List.chain'_cons'.mpr ⟨?_, ih tl it⟩
      intro y _
      intro hc
      rw [rawPipeLine_false_of_marker hm] at hc
      exact absurd hc.1 (by simp)
    · rw [if_neg hm]
      by_cases ht : 2 ≤ countChar '|' l ∨
          ((hasLit "---".data l = true ∨ hasLit "===".data l = true) ∧ it = true)
      · rw [if_pos ht]
        exact ih (tl ++ [l]) true
      · rw [if_neg ht]
        have hp : ¬ 2 ≤ countChar '|' l := fun hc => ht (Or.inl hc)
        have hraw : rawPipeLine l = false := rawPipeLine_false_of_few_pipes hp
        refine List.chain'_append.mpr ⟨chain_flush tl it, ?_, ?_⟩
        · refine List.chain'_cons'.mpr ⟨?_, ih [] false⟩
          intro y _ hc
          exact absurd hc.1 (by simp [hraw])
        · intro x _ y hy hc
          simp only [List.head?_cons, Option.mem_def, Option.some.injEq] at hy
          rw [← hy, hraw] at hc
          exact absurd hc.2 (by simp)

/-- C7 (amended): the regex table-removal pass collapses only runs of two
or more pipe-delimited lines; an isolated single line with at least two
pipes is flushed back verbatim (see the counterexample).  What holds for
every input is: the pass's output never contains two consecutive lines
that both have at least two pipe characters without being marker lines. -/
theorem removeTablesLines_no_adjacent_raw (lines : List (List Char)) :
    List.Chain' (fun a b => ¬ (rawPipeLine a = true ∧ rawPipeLine b = true))
      (removeTablesLines lines) :=
  rtlGo_chain lines [] false

/-- C7 counterexample: a section whose middle line "a | b | c" has two
pipes and no neighbouring pipe line survives cleaning verbatim — the
emitted chunk's content contains a raw line with at least two pipes that
is not a marker, refuting the claim that no such line remains. -/
theorem chunk_content_retains_isolated_pipe_line :
    ¬ (∀ c ∈ chunk_sections (fun _ => false) ⟨500, 1, 5⟩ "d3"
        [⟨"P", 1, String.mk (List.replicate 60 'A' ++ '\n' :: "a | b | c".data ++
          '\n' :: List.replicate 60 'B'), 1, 2⟩] [] [] "",
        ∀ line ∈ linesOf c.content.data, rawPipeLine line = false) := by
  decide

theorem ctrCount_bump_self (k : List Char) (ctr : List (List Char × Nat)) :
    ctrCount (bumpCounter k ctr) k = ctrCount ctr k + 1 := by
  induction ctr with
  | nil => simp [bumpCounter, ctrCount]
  | cons p ps ih =>
    obtain ⟨k', n⟩ := p
    by_cases h : k' = k
    · subst h
      simp [bumpCounter, ctrCount]
    · simp [bumpCounter, ctrCount, h, ih]

theorem ctrCount_bump_other {k k' : List Char} (h : k' ≠ k)
    (ctr : List (List Char × Nat)) :
    ctrCount (bumpCounter k ctr) k' = ctrCount ctr k' := by
  have h' : ¬ k = k' := fun hh => h hh.symm
  induction ctr with
  | nil => simp [bumpCounter, ctrCount, h']
  | cons p ps ih =>
    obtain ⟨k₀, n⟩ := p
    by_cases h0 : k₀ = k
    · subst h0
      simp [bumpCounter, ctrCount, h']
    · simp [bumpCounter, ctrCount, h0, ih]

theorem ctrKeys_bump (k : List Char) (ctr : List (List Char × Nat)) :
    (bumpCounter k ctr).map Prod.fst =
      if k ∈ ctr.map Prod.fst then ctr.map Prod.fst
      else ctr.map Prod.fst ++ [k] := by
  induction ctr with
  | nil => simp [bumpCounter]
  | cons p ps ih =>
    obtain ⟨k₀, n⟩ := p
    by_cases h0 : k₀ = k
    · subst h0
      simp [bumpCounter]
    · have h0' : ¬ k = k₀ := fun hh => h0 hh.symm
      by_cases hk : k ∈ ps.map Prod.fst
      · simp [bumpCounter, h0, ih, hk, h0']
      · simp [bumpCounter, h0, ih, hk, h0']

theorem ctrKeys_bump_nodup {k : List Char} {ctr : List (List Char × Nat)}
    (hnd : (ctr.map Prod.fst).Nodup) :
    ((bumpCounter k ctr).map Prod.fst).Nodup := by
  rw [ctrKeys_bump]
  by_cases hk : k ∈ ctr.map Prod.fst
  · simpa [hk] using hnd
  · rw [if_neg hk]
    simpa [List.nodup_append, hk] using hnd

theorem mem_val_eq_ctrCount {ctr : List (List Char × Nat)}
    (hnd : (ctr.map Prod.fst).Nodup) {p : List Char × Nat} (hp : p ∈ ctr) :
    p.2 = ctrCount ctr p.1 := by
  induction ctr with
  | nil => simp at hp
  | cons q qs ih =>
    obtain ⟨k', n⟩ := q
    simp only [List.map_cons, List.nodup_cons] at hnd
    rcases List.mem_cons.mp hp with h | h
    · subst h
      simp [ctrCount]
    · have hne : k' ≠ p.1 := by
        intro he
        exact hnd.1 (he ▸ List.mem_map_of_mem Prod.fst h)
      rw [ctrCount.eq_def]
      simp only [if_neg hne]
      exact ih hnd.2 h

theorem ctrCount_foldl (keys : List (List Char)) (ctr : List (List Char × Nat))
    (k : List Char) :
    ctrCount (keys.foldl (fun c x => bumpCounter x c) ctr) k =
      ctrCount ctr k + keys.count k := by
  induction keys generalizing ctr with
  | nil => simp
  | cons x xs ih =>
    rw [List.foldl_cons, ih]
    by_cases h : x = k
    · subst h
      rw [ctrCount_bump_self]
      simp [List.count_cons]
      omega
    · rw [ctrCount_bump_other (fun hh => h hh.symm)]
      simp [List.count_cons, h]

theorem ctrKeys_foldl_nodup (keys : List (List Char))
    (ctr : List (List Char × Nat)) (hnd : (ctr.map Prod.fst).Nodup) :
    ((keys.foldl (fun c x => bumpCounter x c) ctr).map Prod.fst).Nodup := by
  induction keys generalizing ctr with
  | nil => simpa
  | cons x xs ih => exact ih _ (ctrKeys_bump_nodup hnd)

theorem ctrKeys_foldl_mem (keys : List (List Char))
    (ctr : List (List Char × Nat)) (a : List Char) :
    a ∈ (keys.foldl (fun c x => bumpCounter x c) ctr).map Prod.fst ↔
      a ∈ ctr.map Prod.fst ∨ a ∈ keys := by
  induction keys generalizing ctr with
  | nil => simp
  | cons x xs ih =>
    rw [List.foldl_cons, ih]
    rw [ctrKeys_bump]
    by_cases hk : x ∈ ctr.map Prod.fst
    · rw [if_pos hk]
      simp only [List.mem_cons]
      constructor
      · rintro (h | h)
        · exact Or.inl h
        · exact Or.inr (Or.inr h)
      · rintro (h | h | h)
        · exact Or.inl h
        · subst h
          exact Or.inl hk
        · exact Or.inr h
    · rw [if_neg hk]
      simp only [List.mem_append, List.mem_cons, List.not_mem_nil, or_false]
      constructor
      · rintro ((h | h) | h)
        · exact Or.inl h
        · exact Or.inr (Or.inl h)
        · exact Or.inr (Or.inr h)
      · rintro (h | h | h)
        · exact Or.inl (Or.inl h)
        · exact Or.inl (Or.inr h)
        · exact Or.inr h

theorem buildCounter_count (keys : List (List Char)) (k : List Char) :
    ctrCount (buildCounter keys) k = keys.count k := by
  unfold buildCounter
  rw [ctrCount_foldl]
  simp [ctrCount]

theorem buildCounter_nodup (keys : List (List Char)) :
    ((buildCounter keys).map Prod.fst).Nodup :=
  ctrKeys_foldl_nodup keys [] (by simp)

theorem buildCounter_mem (keys : List (List Char)) (a : List Char) :
    a ∈ (buildCounter keys).map Prod.fst ↔ a ∈ keys := by
  unfold buildCounter
  rw [ctrKeys_foldl_mem]
  simp

/-- C5 (amended): for documents with at least two sections, the per-line
frequency rule of the header/footer detector flags a line exactly when its
occurrence count across the counted header/footer-zone lines (stripped
lines of length strictly between 3 and 150) reaches
max(2, int(0.2 * section_count)) — the floor, not the ceiling, of
0.2 * section_count. -/
theorem detect_freq_lines_iff (sections : List ParsedSection) (l : List Char)
    (h2 : 2 ≤ sections.length) :
    l ∈ detect_repeated_headers_freq_lines sections ↔
      freqThreshold sections.length ≤ (countedHeaderLines sections).count l := by
  unfold detect_repeated_headers_freq_lines
  rw [if_pos h2]
  constructor
  · intro h
    obtain ⟨p, hp, hfst⟩ := List.mem_map.mp h
    obtain ⟨hpc, hth⟩ := List.mem_filter.mp hp
    simp only [decide_eq_true_eq] at hth
    have hv : p.2 = ctrCount (buildCounter (countedHeaderLines sections)) p.1 :=
      mem_val_eq_ctrCount (buildCounter_nodup _) hpc
    rw [buildCounter_count, hfst] at hv
    omega
  · intro h
    have h1 : 1 ≤ (countedHeaderLines sections).count l := by
      have : 2 ≤ freqThreshold sections.length := le_max_left _ _
      omega
    have hmem : l ∈ countedHeaderLines sections := by
      by_contra hc
      rw [List.count_eq_zero_of_not_mem hc] at h1
      omega
    have hkeys : l ∈ (buildCounter (countedHeaderLines sections)).map Prod.fst :=
      (buildCounter_mem _ l).mpr hmem
    obtain ⟨p, hpc, hfst⟩ := List.mem_map.mp hkeys
    have hv : p.2 = ctrCount (buildCounter (countedHeaderLines sections)) p.1 :=
      mem_val_eq_ctrCount (buildCounter_nodup _) hpc
    rw [buildCounter_count, hfst] at hv
    refine List.mem_map.mpr ⟨p, List.mem_filter.mpr ⟨hpc, ?_⟩, hfst⟩
    simp only [decide_eq_true_eq]
    omega

/-- C5 witness for the amended theorem: two sections sharing one header
line; threshold max(2, 0) = 2 is met, so the line is flagged. -/
theorem detect_freq_lines_iff_witness :
    "DUP HEADER LINE".data ∈ detect_repeated_headers_freq_lines
      [⟨"A", 1, "DUP HEADER LINE", 1, 1⟩, ⟨"B", 1, "DUP HEADER LINE", 1, 1⟩] := by
  have h := detect_freq_lines_iff
    [⟨"A", 1, "DUP HEADER LINE", 1, 1⟩, ⟨"B", 1, "DUP HEADER LINE", 1, 1⟩]
    "DUP HEADER LINE".data (by decide)
  exact h.mpr (by decide)

/-- C5 counterexample: with 16 one-line sections of which exactly 3 share
a header line, the code flags the line by frequency — its threshold is
max(2, int(16 * 0.2)) = max(2, 3) = 3 — while the claimed threshold
max(2, ceil(16 * 0.2)) = max(2, 4) = 4 exceeds the line's recurrence 3,
so the claimed characterisation is false at this input. -/
theorem detect_freq_threshold_flaw :
    "REPEATED HEADER LINE".data ∈ detect_repeated_headers_freq_lines c5sections ∧
    (countedHeaderLines c5sections).count "REPEATED HEADER LINE".data = 3 ∧
    3 < max 2 4 := by
  decide

theorem insertDesc_length [LinearOrder α] (x : SearchResult α)
    (l : List (SearchResult α)) : (insertDesc x l).length = l.length + 1 := by
  induction l with
  | nil => rfl
  | cons y ys ih =>
    unfold insertDesc
    split
    · simp
    · simp [ih]

theorem sortByScoreDesc_length [LinearOrder α] (l : List (SearchResult α)) :
    (sortByScoreDesc l).length = l.length := by
  induction l with
  | nil => rfl
  | cons x xs ih =>
    unfold sortByScoreDesc
    rw [insertDesc_length, ih]
    simp

theorem insertDesc_perm [LinearOrder α] (x : SearchResult α)
    (l : List (SearchResult α)) : (insertDesc x l).Perm (x :: l) := by
  induction l with
  | nil => rfl
  | cons y ys ih =>
    unfold insertDesc
    split
    · rfl
    · exact (List.Perm.cons y ih).trans (List.Perm.swap x y ys)

theorem sortByScoreDesc_perm [LinearOrder α] (l : List (SearchResult α)) :
    (sortByScoreDesc l).Perm l := by
  induction l with
  | nil => rfl
  | cons x xs ih =>
    unfold sortByScoreDesc
    exact (insertDesc_perm x (sortByScoreDesc xs)).trans (List.Perm.cons x ih)

theorem rescoreGo_length [LinearOrder α] (l : List (SearchResult α))
    (s : List α) : (rescoreGo l s).length = l.length := by
  induction l generalizing s with
  | nil => cases s <;> rfl
  | cons c cs ih =>
    cases s with
    | nil => rfl
    | cons v vs => simp [rescoreGo, ih]

/-- C1: when the weighted candidate pool is non-empty, the (positive)
similarity threshold excludes every truncated candidate, and the final
result count rerank_top_k is at least 3, search() returns exactly
min(3, pool_size) results — never zero — via the fallback rule, whether or
not reranking runs. -/
theorem search_fallback_nonempty {α : Type} [LinearOrderedCommRing α]
    (cfg : SearchConfig α) (q : String)
    (rerankFn : String → List String → List α)
    (textR tableR imageR : List (SearchResult α)) (st stb si : Bool)
    (aT aTb aI : α) (top_k : Nat)
    (hpool : weightedPool textR tableR imageR st stb si aT aTb aI ≠ [])
    (hthr : 0 < cfg.similarity_threshold)
    (hexcl : ∀ r ∈ (sortByScoreDesc
        (weightedPool textR tableR imageR st stb si aT aTb aI)).take top_k,
      r.score < cfg.similarity_threshold)
    (hk : 3 ≤ cfg.rerank_top_k) :
    (search cfg q rerankFn textR tableR imageR st stb si aT aTb aI top_k).length =
      min 3 (weightedPool textR tableR imageR st stb si aT aTb aI).length ∧
    search cfg q rerankFn textR tableR imageR st stb si aT aTb aI top_k ≠ [] := by
  have hactive : ¬ ((cond st 1 0 + cond stb 1 0 + cond si 1 0 : Nat) = 0) := by
    intro h0
    cases st <;> cases stb <;> cases si <;> simp_all [weightedPool]
  have hne : ¬ ((weightedPool textR tableR imageR st stb si aT aTb aI).isEmpty =
      true) := by
    rw [List.isEmpty_iff]
    exact hpool
  have hfilter : ((sortByScoreDesc
      (weightedPool textR tableR imageR st stb si aT aTb aI)).take top_k).filter
        (fun r => cfg.similarity_threshold ≤ r.score) = [] := by
    rw [List.filter_eq_nil_iff]
    intro a ha
    simpa using not_le.mpr (hexcl a ha)
  have hlen : (search cfg q rerankFn textR tableR imageR st stb si aT aTb aI
      top_k).length =
      min 3 (weightedPool textR tableR imageR st stb si aT aTb aI).length := by
    simp only [search]
    rw [if_neg hactive, if_neg hne, if_pos hthr, hfilter]
    simp only [List.isEmpty_nil, eq_self_iff_true, if_true]
    set P := weightedPool textR tableR imageR st stb si aT aTb aI with hP
    have hsl : (sortByScoreDesc P).length = P.length := sortByScoreDesc_length P
    have htl : ((sortByScoreDesc P).take (min 3 P.length)).length =
        min 3 P.length := by
      rw [List.length_take, hsl]
      exact min_eq_left (min_le_right 3 P.length)
    have hfin : cfg.rerank_top_k ⊓ (3 ⊓ P.length) = 3 ⊓ P.length :=
      min_eq_right (le_trans (min_le_left 3 P.length) hk)
    split
    · rw [List.length_take, sortByScoreDesc_length, rescoreGo_length, htl]
      exact hfin
    · rw [List.length_take, htl]
      exact hfin
  refine ⟨hlen, ?_⟩
  intro hnil
  rw [hnil] at hlen
  have : (weightedPool textR tableR imageR st stb si aT aTb aI).length ≠ 0 := by
    intro h0
    exact hpool (List.length_eq_zero.mp h0)
  simp at hlen
  omega

/-- C1 witness: a two-candidate text pool with weighted scores 1 and 2,
threshold 5 excluding both, reranking enabled, rerank_top_k = 10: search
returns exactly min(3, 2) = 2 results. -/
theorem search_fallback_nonempty_witness :
    (search (α := Int) ⟨5, true, 10⟩ "q" (fun _ ds => ds.map (fun _ => 1))
      [⟨"c1", 1, "text", "d", 1, "", 0, none, none, none, none, [], []⟩,
       ⟨"c2", 2, "text", "d", 1, "", 0, none, none, none, none, [], []⟩] [] []
      true false false 1 1 1 60).length = 2 := by
  have h := search_fallback_nonempty (α := Int) ⟨5, true, 10⟩ "q"
    (fun _ ds => ds.map (fun _ => 1))
    [⟨"c1", 1, "text", "d", 1, "", 0, none, none, none, none, [], []⟩,
     ⟨"c2", 2, "text", "d", 1, "", 0, none, none, none, none, [], []⟩] [] []
    true false false 1 1 1 60 (by decide) (by decide) (by decide) (by decide)
  exact h.1.trans (by decide)

/-- C8 counterexample: raw scores held fixed (5, 1, 1), threshold 10,
reranking off.  With text weight 1 every weighted score is below the
threshold, so the fallback returns the top 3 — three text results.
Raising the text weight to 2 lets exactly one candidate pass the
threshold, so no fallback fires and only one text result is returned:
increasing the type's weight decreased its representation. -/
theorem search_weight_not_monotone :
    countSourceType "text" (search (α := Int) ⟨10, false, 10⟩ "q"
        (fun _ _ => []) c8results [] [] true false false 2 1 1 60) <
      countSourceType "text" (search (α := Int) ⟨10, false, 10⟩ "q"
        (fun _ _ => []) c8results [] [] true false false 1 1 1 60) := by
  decide

theorem scaleScores_length [Mul α] (a : α) (l : List (SearchResult α)) :
    (scaleScores a l).length = l.length := by
  simp [scaleScores]

theorem countSourceType_sortByScoreDesc [LinearOrder α] (t : String)
    (l : List (SearchResult α)) :
    countSourceType t (sortByScoreDesc l) = countSourceType t l :=
  (sortByScoreDesc_perm l).countP_eq _

theorem countSourceType_rescoreGo [LinearOrder α] (t : String)
    (l : List (SearchResult α)) (s : List α) :
    countSourceType t (rescoreGo l s) = countSourceType t l := by
  induction l generalizing s with
  | nil => cases s <;> rfl
  | cons c cs ih =>
    cases s with
    | nil => rfl
    | cons v vs =>
      unfold countSourceType at *
      simp only [rescoreGo]
      rw [List.countP_cons, List.countP_cons, ih]

theorem countSourceType_filter_sort [LinearOrder α] (t : String)
    (θ : α) (P : List (SearchResult α)) :
    countSourceType t ((sortByScoreDesc P).filter (fun r => θ ≤ r.score)) =
      P.countP (fun r => decide (r.source_type = t) && decide (θ ≤ r.score)) := by
  unfold countSourceType
  rw [List.countP_filter]
  exact (sortByScoreDesc_perm P).countP_eq _

/-- Evaluation of search() when the pool fits the candidate budget, the
threshold is positive but does not remove every candidate, and the
surviving set fits the final result count: the returned list's per-type
counts are those of the threshold-surviving pool, whether or not
reranking runs. -/
theorem search_count_no_fallback {α : Type} [LinearOrderedCommRing α]
    (cfg : SearchConfig α) (q : String)
    (rerankFn : String → List String → List α)
    (textR tableR imageR : List (SearchResult α)) (st stb si : Bool)
    (aT aTb aI : α) (top_k : Nat) (t : String)
    (hactive : ¬ ((cond st 1 0 + cond stb 1 0 + cond si 1 0 : Nat) = 0))
    (hpool : weightedPool textR tableR imageR st stb si aT aTb aI ≠ [])
    (hthr : 0 < cfg.similarity_threshold)
    (hfit : (weightedPool textR tableR imageR st stb si aT aTb aI).length ≤ top_k)
    (hsurv : ((sortByScoreDesc (weightedPool textR tableR imageR st stb si aT
        aTb aI)).filter (fun r => cfg.similarity_threshold ≤ r.score)) ≠ [])
    (hfit2 : ((sortByScoreDesc (weightedPool textR tableR imageR st stb si aT
        aTb aI)).filter (fun r => cfg.similarity_threshold ≤ r.score)).length ≤
        cfg.rerank_top_k) :
    countSourceType t
        (search cfg q rerankFn textR tableR imageR st stb si aT aTb aI top_k) =
      (weightedPool textR tableR imageR st stb si aT aTb aI).countP
        (fun r => decide (r.source_type = t) &&
          decide (cfg.similarity_threshold ≤ r.score)) := by
  have hne : ¬ ((weightedPool textR tableR imageR st stb si aT aTb aI).isEmpty =
      true) := by
    rw [List.isEmpty_iff]
    exact hpool
  have hfne : ¬ (((sortByScoreDesc (weightedPool textR tableR imageR st stb si
      aT aTb aI)).filter
        (fun r => cfg.similarity_threshold ≤ r.score)).isEmpty = true) := by
    rw [List.isEmpty_iff]
    exact hsurv
  have htake : List.take top_k (sortByScoreDesc
      (weightedPool textR tableR imageR st stb si aT aTb aI)) =
      sortByScoreDesc (weightedPool textR tableR imageR st stb si aT aTb aI) :=
    List.take_of_length_le (by rw [sortByScoreDesc_length]; exact hfit)
  simp only [search]
  rw [if_neg hactive, if_neg hne, if_pos hthr, htake, if_neg hfne]
  split
  · have htake2 : List.take cfg.rerank_top_k (sortByScoreDesc (rescoreGo
        ((sortByScoreDesc (weightedPool textR tableR imageR st stb si aT
          aTb aI)).filter (fun r => cfg.similarity_threshold ≤ r.score))
        (rerankFn q (((sortByScoreDesc (weightedPool textR tableR imageR st stb
          si aT aTb aI)).filter
            (fun r => cfg.similarity_threshold ≤ r.score)).map
          (fun r => r.content))))) =
        sortByScoreDesc (rescoreGo
        ((sortByScoreDesc (weightedPool textR tableR imageR st stb si aT
          aTb aI)).filter (fun r => cfg.similarity_threshold ≤ r.score))
        (rerankFn q (((sortByScoreDesc (weightedPool textR tableR imageR st stb
          si aT aTb aI)).filter
            (fun r => cfg.similarity_threshold ≤ r.score)).map
          (fun r => r.content)))) :=
      List.take_of_length_le (by
        rw [sortByScoreDesc_length, rescoreGo_length]; exact hfit2)
    rw [htake2, countSourceType_sortByScoreDesc, countSourceType_rescoreGo]
    exact countSourceType_filter_sort t cfg.similarity_threshold _
  · rw [List.take_of_length_le hfit2]
    exact countSourceType_filter_sort t cfg.similarity_threshold _

theorem weightedPool_countP_mono {α : Type} [LinearOrderedCommRing α]
    (textR tableR imageR : List (SearchResult α)) (st stb si : Bool)
    (aT aT' aTb aI : α) (p : SearchResult α → Bool)
    (hp : ∀ x ∈ textR, p { x with score := x.score * aT } = true →
      p { x with score := x.score * aT' } = true) :
    (weightedPool textR tableR imageR st stb si aT aTb aI).countP p ≤
      (weightedPool textR tableR imageR st stb si aT' aTb aI).countP p := by
  unfold weightedPool
  rw [List.countP_append, List.countP_append, List.countP_append,
    List.countP_append]
  refine Nat.add_le_add (Nat.add_le_add ?_ (le_refl _)) (le_refl _)
  cases st
  · simp
  · rw [if_pos rfl, if_pos rfl]
    unfold scaleScores
    rw [List.countP_map, List.countP_map]
    exact List.countP_mono_left (fun x hx hpx => hp x hx hpx)

theorem sorted_filter_length {α : Type} [LinearOrder α]
    (l : List (SearchResult α)) (p : SearchResult α → Bool) :
    ((sortByScoreDesc l).filter p).length = l.countP p := by
  rw [← List.countP_eq_length_filter]
  exact (sortByScoreDesc_perm l).countP_eq p

theorem weightedPool_length_weight_free {α : Type} [LinearOrderedCommRing α]
    (textR tableR imageR : List (SearchResult α)) (st stb si : Bool)
    (aT aT' aTb aI : α) :
    (weightedPool textR tableR imageR st stb si aT' aTb aI).length =
      (weightedPool textR tableR imageR st stb si aT aTb aI).length := by
  cases st <;> simp [weightedPool, scaleScores]

/-- C8 (amended): weight monotonicity holds on the no-fallback regime.
With raw text scores nonnegative, a positive threshold, a pool that fits
the candidate budget, at least one threshold survivor at the lower weight,
and the survivors at the higher weight fitting rerank_top_k, raising the
text weight cannot decrease the number of text results returned by
search(); in general the claim fails because raising a weight can lift a
candidate over the threshold and thereby switch off the min(3, pool)
fallback (see the counterexample). -/
theorem search_weight_monotone {α : Type} [LinearOrderedCommRing α]
    (cfg : SearchConfig α) (q : String)
    (rerankFn : String → List String → List α)
    (textR tableR imageR : List (SearchResult α)) (st stb si : Bool)
    (aT aT' aTb aI : α) (top_k : Nat)
    (hactive : ¬ ((cond st 1 0 + cond stb 1 0 + cond si 1 0 : Nat) = 0))
    (ha : aT ≤ aT')
    (hpos : ∀ r ∈ textR, 0 ≤ r.score)
    (htype : ∀ r ∈ textR, r.source_type = "text")
    (hthr : 0 < cfg.similarity_threshold)
    (hfit : (weightedPool textR tableR imageR st stb si aT aTb aI).length ≤
      top_k)
    (hsurv : (sortByScoreDesc (weightedPool textR tableR imageR st stb si aT
        aTb aI)).filter (fun r => cfg.similarity_threshold ≤ r.score) ≠ [])
    (hfit2 : ((sortByScoreDesc (weightedPool textR tableR imageR st stb si aT'
        aTb aI)).filter
          (fun r => cfg.similarity_threshold ≤ r.score)).length ≤
        cfg.rerank_top_k) :
    countSourceType "text"
        (search cfg q rerankFn textR tableR imageR st stb si aT aTb aI top_k) ≤
      countSourceType "text"
        (search cfg q rerankFn textR tableR imageR st stb si aT' aTb aI
          top_k) := by
  have hp1 : ∀ x ∈ textR,
      (fun r : SearchResult α => decide (cfg.similarity_threshold ≤ r.score))
        { x with score := x.score * aT } = true →
      (fun r : SearchResult α => decide (cfg.similarity_threshold ≤ r.score))
        { x with score := x.score * aT' } = true := by
    intro x hx h
    simp only [decide_eq_true_eq] at h ⊢
    exact le_trans h (mul_le_mul_of_nonneg_left ha (hpos x hx))
  have hp2 : ∀ x ∈ textR,
      (fun r : SearchResult α => decide (r.source_type = "text") &&
          decide (cfg.similarity_threshold ≤ r.score))
        { x with score := x.score * aT } = true →
      (fun r : SearchResult α => decide (r.source_type = "text") &&
          decide (cfg.similarity_threshold ≤ r.score))
        { x with score := x.score * aT' } = true := by
    intro x hx h
    simp only [Bool.and_eq_true, decide_eq_true_eq] at h ⊢
    exact ⟨h.1, le_trans h.2 (mul_le_mul_of_nonneg_left ha (hpos x hx))⟩
  have hc1 := weightedPool_countP_mono textR tableR imageR st stb si aT aT'
    aTb aI (fun r => decide (cfg.similarity_threshold ≤ r.score)) hp1
  have hc2 := weightedPool_countP_mono textR tableR imageR st stb si aT aT'
    aTb aI (fun r => decide (r.source_type = "text") &&
      decide (cfg.similarity_threshold ≤ r.score)) hp2
  have hfl := sorted_filter_length
    (weightedPool textR tableR imageR st stb si aT aTb aI)
    (fun r => decide (cfg.similarity_threshold ≤ r.score))
  have hfl' := sorted_filter_length
    (weightedPool textR tableR imageR st stb si aT' aTb aI)
    (fun r => decide (cfg.similarity_threshold ≤ r.score))
  have h0 : 0 < (weightedPool textR tableR imageR st stb si aT aTb aI).countP
      (fun r => decide (cfg.similarity_threshold ≤ r.score)) := by
    rw [← hfl]
    exact List.length_pos.mpr hsurv
  have h0' : 0 < (weightedPool textR tableR imageR st stb si aT' aTb aI).countP
      (fun r => decide (cfg.similarity_threshold ≤ r.score)) :=
    lt_of_lt_of_le h0 hc1
  have hsurv' : (sortByScoreDesc (weightedPool textR tableR imageR st stb si
      aT' aTb aI)).filter
        (fun r => cfg.similarity_threshold ≤ r.score) ≠ [] := by
    apply List.length_pos.mp
    rw [hfl']
    exact h0'
  have hfit2a : ((sortByScoreDesc (weightedPool textR tableR imageR st stb si
      aT aTb aI)).filter
        (fun r => cfg.similarity_threshold ≤ r.score)).length ≤
      cfg.rerank_top_k := by
    rw [hfl]
    exact le_trans hc1 (le_trans (le_of_eq hfl'.symm) hfit2)
  have hpoolA : weightedPool textR tableR imageR st stb si aT aTb aI ≠ [] := by
    apply List.length_pos.mp
    exact lt_of_lt_of_le h0 (List.countP_le_length _)
  have hpoolB : weightedPool textR tableR imageR st stb si aT' aTb aI ≠ [] := by
    apply List.length_pos.mp
    exact lt_of_lt_of_le h0' (List.countP_le_length _)
  have hfitB : (weightedPool textR tableR imageR st stb si aT' aTb
      aI).length ≤ top_k := by
    rw [weightedPool_length_weight_free textR tableR imageR st stb si aT aT'
      aTb aI]
    exact hfit
  rw [search_count_no_fallback cfg q rerankFn textR tableR imageR st stb si aT
      aTb aI top_k "text" hactive hpoolA hthr hfit hsurv hfit2a,
    search_count_no_fallback cfg q rerankFn textR tableR imageR st stb si aT'
      aTb aI top_k "text" hactive hpoolB hthr hfitB hsurv' hfit2]
  exact hc2

/-- C8 witness: one text result with raw score 3, threshold 2, reranking
off, weights 1 then 2; every hypothesis of the amended monotonicity
theorem is discharged concretely. -/
theorem search_weight_monotone_witness :
    countSourceType "text" (search (α := Int) ⟨2, false, 10⟩ "q"
        (fun _ _ => []) c8wres [] [] true false false 1 1 1 5) ≤
      countSourceType "text" (search (α := Int) ⟨2, false, 10⟩ "q"
        (fun _ _ => []) c8wres [] [] true false false 2 1 1 5) :=
  search_weight_monotone ⟨2, false, 10⟩ "q" (fun _ _ => []) c8wres [] []
    true false false 1 2 1 1 5 (by decide) (by decide) (by decide) (by decide)
    (by decide) (by decide) (by decide) (by decide)
